import Mathlib

/-!
# Commit message engine of golang-git-fritz (src/commit.go)

A shallow embedding of `commit.go`: the commit record, `setupValidators`,
`read`, `build`, `validate`, `save`, `write`, `parse` and `newCommit`,
together with a model of the parts of Go's standard library the code
calls (`regexp.Compile`, `(*Regexp).MatchString`, `(*Regexp).Split`,
`strings.Join`, `strings.Contains`, `fmt.Errorf` with `%s`).

Conventions.
* A Go `string` holding valid UTF-8 is a Lean `String`; `len(s)` is the
  UTF-8 byte size and `len([]rune(s))` is the number of code points.
* A Go `error` is `Option String`: `none` is `nil`, `some msg` is an error
  whose `Error()` text is `msg`.
* A Go pointer that may be `nil` is an `Option`; code that can fault at run
  time (nil dereference, index out of range) runs in `Except Panic`.
-/

namespace Fritz

/-! ## Go run-time model -/

/-- A Go `error` value: `none` is `nil`. -/
abbrev error := Option String

/-- Run-time faults of the Go code. -/
inductive Panic where
  | nilPointerDereference
  | indexOutOfRange
  deriving DecidableEq, Repr

deriving instance DecidableEq for Except

/-- Go `len(s)` for a string: the number of bytes of its UTF-8 encoding. -/
def len (s : String) : Nat := s.utf8ByteSize

/-- Go `len([]rune(s))`: the number of Unicode code points of `s`. -/
def runeCount (s : String) : Nat := s.data.length

/-- `fmt.Sprintf("%s", err)` for an `error`: the error text, and the
verb-error marker that `fmt` prints for a nil interface value. -/
def fmtErr : error → String
  | none => "%!s(<nil>)"
  | some e => e

/-- Does `sub` occur in `s` as a contiguous block? -/
def containsList : List Char → List Char → Bool
  | [], sub => sub.isEmpty
  | c :: cs, sub => sub.isPrefixOf (c :: cs) || containsList cs sub

/-- Go `strings.Contains(s, substr)`. -/
def strings.Contains (s substr : String) : Bool := containsList s.data substr.data

/-- Go `strings.Join(elems, sep)`. -/
def strings.Join : List String → String → String
  | [], _ => ""
  | [a], _ => a
  | a :: b :: rest, sep => a ++ sep ++ strings.Join (b :: rest) sep

/-- Go `strings.ToLower` on one code point (ASCII letters; other code points
are left as they are in this model). -/
def toLowerChar (c : Char) : Char := c.toLower

/-- Go `strings.ToLower`. -/
def strings.ToLower (s : String) : String := ⟨s.data.map toLowerChar⟩

/-! ## Model of Go's `regexp` (RE2 syntax, Perl flags, leftmost-first)

The fragment covered: literals, `.`, `^`, `$`, groups `( )` and `(?: )`,
alternation `|`, the repetitions `*`, `+`, `?` and their lazy forms, the
escapes `\A \z \b \B \d \D \s \S \w \W \a \f \n \r \t \v` and escaped ASCII
punctuation. Bracket classes, counted repetition, flags, named groups,
Unicode classes, `\Q`, octal and hexadecimal escapes are outside the
fragment and `regexp.Compile` reports them as an error whose text starts
with `unsupported`; `inFragment` says that a pattern is inside. Inside the
fragment `regexp.Compile` succeeds exactly when the library does and a parse
error carries the library's text. Size and nesting limits of the library are
not modelled; `inFragment` keeps patterns far below them.
-/

/-- Perl character classes `\d`, `\s`, `\w` (ASCII only in Go). -/
inductive PerlClass where
  | digit
  | space
  | word
  deriving DecidableEq, Repr

/-- Go `syntax.IsWordChar`: `[0-9A-Za-z_]`. -/
def isWordChar (c : Char) : Bool :=
  (decide ('0' ≤ c) && decide (c ≤ '9')) || (decide ('A' ≤ c) && decide (c ≤ 'Z')) ||
  (decide ('a' ≤ c) && decide (c ≤ 'z')) || c == '_'

/-- Membership of a code point in a Perl class. -/
def PerlClass.mem : PerlClass → Char → Bool
  | .digit, c => decide ('0' ≤ c) && decide (c ≤ '9')
  | .space, c => c == '\t' || c == '\n' || c == Char.ofNat 12 || c == '\r' || c == ' '
  | .word, c => isWordChar c

/-- Parsed regular expression (the operators of Go's `regexp/syntax`). -/
inductive Node where
  | emptyMatch
  | literal (c : Char)
  | anyCharNotNL
  | charClass (cls : PerlClass) (negated : Bool)
  | beginText
  | endText
  | wordBoundary
  | noWordBoundary
  | capture (sub : Node)
  | star (sub : Node) (greedy : Bool)
  | plus (sub : Node) (greedy : Bool)
  | quest (sub : Node) (greedy : Bool)
  | concat (a b : Node)
  | alternate (a b : Node)
  deriving DecidableEq, Repr

/-- A position in the subject text while matching: the code point just
before the position (`none` at the beginning of the text) and the text that
remains. -/
abbrev Pos := Option Char × List Char

/-- Is the code point before/after a position a word character? -/
def isWordOpt : Option Char → Bool
  | none => false
  | some c => isWordChar c

/-- Iterate `step` zero or more times from a position. Iterations that
consume nothing are skipped (they reach no new position). Results are in
priority order: a greedy loop prefers more iterations. -/
def starLoop (step : Option Char → List Char → List Pos) (greedy : Bool) :
    Nat → Option Char → List Char → List Pos
  | 0, p, s => [(p, s)]
  | fuel + 1, p, s =>
    let more := ((step p s).filter (fun r => decide (r.2.length < s.length))).flatMap
      (fun r => starLoop step greedy fuel r.1 r.2)
    if greedy then more ++ [(p, s)] else (p, s) :: more

/-- All ways the expression can match starting at a position, each given
by the position right after the match, in leftmost-first priority order. -/
def Node.run : Node → Option Char → List Char → List Pos
  | .emptyMatch, p, s => [(p, s)]
  | .literal c, _, s =>
    match s with
    | [] => []
    | d :: t => if d = c then [(some d, t)] else []
  | .anyCharNotNL, _, s =>
    match s with
    | [] => []
    | d :: t => if d = '\n' then [] else [(some d, t)]
  | .charClass cls negated, _, s =>
    match s with
    | [] => []
    | d :: t => if (cls.mem d != negated) then [(some d, t)] else []
  | .beginText, p, s => if p = none then [(p, s)] else []
  | .endText, p, s => if s = [] then [(p, s)] else []
  | .wordBoundary, p, s => if isWordOpt p != isWordOpt s.head? then [(p, s)] else []
  | .noWordBoundary, p, s => if isWordOpt p == isWordOpt s.head? then [(p, s)] else []
  | .capture sub, p, s => sub.run p s
  | .star sub greedy, p, s => starLoop (fun q t => sub.run q t) greedy s.length p s
  | .plus sub greedy, p, s =>
    (sub.run p s).flatMap (fun r => starLoop (fun q t => sub.run q t) greedy r.2.length r.1 r.2)
  | .quest sub greedy, p, s =>
    if greedy then sub.run p s ++ [(p, s)] else (p, s) :: sub.run p s
  | .concat a b, p, s => (a.run p s).flatMap (fun r => b.run r.1 r.2)
  | .alternate a b, p, s => a.run p s ++ b.run p s

/-- Is there a match starting at this position or at a later one? -/
def Node.matchFrom (n : Node) : Option Char → List Char → Bool
  | p, [] => !(n.run p []).isEmpty
  | p, c :: t => !(n.run p (c :: t)).isEmpty || n.matchFrom (some c) t

/-- A compiled regular expression (Go `regexp.Regexp`): the source text of
the pattern and its parsed form. -/
structure Regexp where
  expr : String
  prog : Node
  deriving DecidableEq, Repr

/-- Go `(*Regexp).MatchString` on a non-nil receiver: does the text contain
any match of the expression? -/
def Regexp.MatchString (re : Regexp) (s : String) : Bool :=
  re.prog.matchFrom none s.data

/-- Repetition operators `*`, `+`, `?`. -/
inductive RepOp where
  | star
  | plus
  | quest
  deriving DecidableEq, Repr

/-- Lexical items of a pattern. `bad` stands for text that cannot be read:
a syntax error of the library, with its error text, or syntax outside the
modelled fragment. -/
inductive Token where
  | atom (n : Node)
  | lparen (capturing : Bool)
  | rparen
  | bar
  | rep (op : RepOp) (greedy : Bool)
  | bad (msg : String)
  deriving DecidableEq, Repr

/-- ASCII letter or digit (Go `isalnum`). -/
def isalnum (c : Char) : Bool :=
  (decide ('0' ≤ c) && decide (c ≤ '9')) || (decide ('A' ≤ c) && decide (c ≤ 'Z')) ||
  (decide ('a' ≤ c) && decide (c ≤ 'z'))

/-- The text of a `syntax.Error`: the error code and the offending part of
the pattern between back quotes. -/
def parseError (code expr : String) : String :=
  "error parsing regexp: " ++ code ++ ": `" ++ expr ++ "`"

/-- The text of a repetition operator as written in the pattern. -/
def repText (op : RepOp) (greedy : Bool) : String :=
  (match op with
    | .star => "*"
    | .plus => "+"
    | .quest => "?") ++ (if greedy then "" else "?")

/-- The item denoted by a backslash followed by `e`. -/
def lexEscape (e : Char) : Token :=
  if e = 'A' then .atom .beginText
  else if e = 'z' then .atom .endText
  else if e = 'b' then .atom .wordBoundary
  else if e = 'B' then .atom .noWordBoundary
  else if e = 'd' then .atom (.charClass .digit false)
  else if e = 'D' then .atom (.charClass .digit true)
  else if e = 's' then .atom (.charClass .space false)
  else if e = 'S' then .atom (.charClass .space true)
  else if e = 'w' then .atom (.charClass .word false)
  else if e = 'W' then .atom (.charClass .word true)
  else if e = 'a' then .atom (.literal (Char.ofNat 7))
  else if e = 'f' then .atom (.literal (Char.ofNat 12))
  else if e = 'n' then .atom (.literal '\n')
  else if e = 'r' then .atom (.literal '\r')
  else if e = 't' then .atom (.literal '\t')
  else if e = 'v' then .atom (.literal (Char.ofNat 11))
  else if e = 'Q' ∨ e = 'p' ∨ e = 'P' ∨ e = 'x' ∨ (e.isDigit ∧ e ≠ '8' ∧ e ≠ '9') then
    .bad "unsupported escape sequence"
  else if e.toNat < 128 ∧ isalnum e = false then .atom (.literal e)
  else .bad (parseError "invalid escape sequence" ⟨['\\', e]⟩)

/-- Cut a pattern into lexical items, left to right. -/
def lex : List Char → List Token
  | [] => []
  | c :: t =>
    let rest := lex t
    if c = '\\' then
      match t with
      | [] => [.bad (parseError "trailing backslash at end of expression" "")]
      | e :: t' => lexEscape e :: lex t'
    else if c = '(' then
      match t with
      | d :: t' =>
        if d = '?' then
          match t' with
          | e :: t'' =>
            if e = ':' then Token.lparen false :: lex t''
            else [.bad "unsupported group syntax"]
          | [] => [.bad "unsupported group syntax"]
        else Token.lparen true :: rest
      | [] => Token.lparen true :: rest
    else if c = '*' ∨ c = '+' ∨ c = '?' then
      let op := if c = '*' then RepOp.star else if c = '+' then RepOp.plus else RepOp.quest
      match t with
      | d :: t' =>
        if d = '?' then Token.rep op false :: lex t'
        else Token.rep op true :: rest
      | [] => Token.rep op true :: rest
    else if c = '[' ∨ c = '{' then [.bad "unsupported bracket syntax"]
    else
      let tok :=
        if c = ')' then Token.rparen
        else if c = '|' then Token.bar
        else if c = '^' then Token.atom .beginText
        else if c = '$' then Token.atom .endText
        else if c = '.' then Token.atom .anyCharNotNL
        else Token.atom (.literal c)
      tok :: rest

/-- Concatenation of a sequence of expressions. -/
def mkConcat : List Node → Node
  | [] => .emptyMatch
  | [x] => x
  | x :: y :: rest => .concat x (mkConcat (y :: rest))

/-- Alternation of a sequence of expressions, first alternative preferred. -/
def mkAlternate : List Node → Node
  | [] => .emptyMatch
  | [x] => x
  | x :: y :: rest => .alternate x (mkAlternate (y :: rest))

/-- An open group during parsing: the alternatives already closed by `|`
and the items of the alternative being read, both most recent first. -/
structure Frame where
  alts : List Node
  items : List Node
  capturing : Bool
  deriving DecidableEq, Repr

/-- The expression of a group once all of it has been read. -/
def Frame.close (f : Frame) : Node :=
  mkAlternate (f.alts.reverse ++ [mkConcat f.items.reverse])

/-- Apply a repetition operator. -/
def applyRep : RepOp → Bool → Node → Node
  | .star, g, n => .star n g
  | .plus, g, n => .plus n g
  | .quest, g, n => .quest n g

/-- Operator-precedence parsing over the lexical items of the pattern
`whole`, left to right: `top` is the innermost open group, `stack` the groups
around it, `lastRepeat` the text of the repetition operator just before this
item (empty when the previous item was not one). Alternation binds loosest,
then concatenation, then repetition (as in Go's `regexp/syntax`). The first
item that cannot be read ends the parse with its error. -/
def parseTokens (whole : String) :
    List Token → Frame → List Frame → String → Except String Node
  | [], top, stack, _ =>
    match stack with
    | [] => .ok top.close
    | _ :: _ => .error (parseError "missing closing )" whole)
  | tok :: rest, top, stack, lastRepeat =>
    match tok with
    | .bad msg => .error msg
    | .atom n => parseTokens whole rest { top with items := n :: top.items } stack ""
    | .lparen cap => parseTokens whole rest ⟨[], [], cap⟩ (top :: stack) ""
    | .bar =>
      parseTokens whole rest
        { top with alts := mkConcat top.items.reverse :: top.alts, items := [] } stack ""
    | .rparen =>
      match stack with
      | [] => .error (parseError "unexpected )" whole)
      | parent :: stack' =>
        let sub := if top.capturing then Node.capture top.close else top.close
        parseTokens whole rest { parent with items := sub :: parent.items } stack' ""
    | .rep op greedy =>
      if lastRepeat ≠ "" then
        .error (parseError "invalid nested repetition operator" (lastRepeat ++ repText op greedy))
      else
        match top.items with
        | [] => .error (parseError "missing argument to repetition operator" (repText op greedy))
        | x :: xs =>
          parseTokens whole rest { top with items := applyRep op greedy x :: xs } stack
            (repText op greedy)

/-- Go `regexp.Compile`: the compiled expression, or the parse error. -/
def regexp.Compile (expr : String) : Except String Regexp :=
  match parseTokens expr (lex expr.data) ⟨[], [], false⟩ [] "" with
  | .error msg => .error msg
  | .ok n => .ok ⟨expr, n⟩

/-- Is this the error the model gives for syntax outside its fragment? (The
errors of the library start with `error parsing regexp`.) -/
def unsupported (msg : String) : Bool := "unsupported".data.isPrefixOf msg.data

/-- The pattern lies in the modelled fragment: the model does not answer
`unsupported`, and the pattern has at most 200 code points, far below the
size and nesting limits of the library, which are not modelled. -/
def inFragment (expr : String) : Bool :=
  decide (expr.length ≤ 200) &&
    (match regexp.Compile expr with
      | .ok _ => true
      | .error msg => !unsupported msg)

/-- The scan of Go's `FindAllStringIndex` together with the cutting done by
`Split`: `p` and `rest` are the current position, `cur` the text since the
end of the last accepted match, `afterMatch` says that the last accepted
match ended exactly here, `atStart` that this is offset 0. -/
def splitLoop (n : Node) : Nat → Option Char → List Char → List Char → Bool → Bool →
    List (List Char)
  | 0, _, rest, cur, _, _ => [cur ++ rest]
  | fuel + 1, p, rest, cur, afterMatch, atStart =>
    match (n.run p rest).head? with
    | some (q, rest') =>
      if rest'.length < rest.length then
        -- a non-empty match: the section ends here, scanning resumes after the match
        cur :: splitLoop n fuel q rest' [] true false
      else if afterMatch then
        -- an empty match right after the previous match is ignored
        match rest with
        | [] => [cur]
        | c :: t => splitLoop n fuel (some c) t (cur ++ [c]) false false
      else
        -- an empty match ends a section, unless it is at offset 0
        match rest with
        | [] => if atStart then [] else [cur]
        | c :: t => (if atStart then [] else [cur]) ++ splitLoop n fuel (some c) t [c] false false
    | none =>
      match rest with
      | [] => [cur]
      | c :: t => splitLoop n fuel (some c) t (cur ++ [c]) false false

/-- Go `(*Regexp).Split(s, -1)` on a non-nil receiver: the pieces of `s`
between the leftmost-first, non-overlapping matches. -/
def Regexp.Split (re : Regexp) (s : String) : List String :=
  if len re.expr > 0 ∧ len s = 0 then [""]
  else (splitLoop re.prog (s.data.length + 1) none s.data [] false true).map String.mk

/-- Go `regexp.Compile` as the pair `(re, err)` the call returns: a nil
pointer together with the error when the pattern does not parse. -/
def compilePair (expr : String) : Option Regexp × error :=
  match regexp.Compile expr with
  | .ok re => (some re, none)
  | .error msg => (none, some msg)

/-- Method call `re.MatchString(s)` through a pointer that may be nil. -/
def MatchString (re : Option Regexp) (s : String) : Except Panic Bool :=
  match re with
  | none => .error .nilPointerDereference
  | some r => .ok (r.MatchString s)

/-! ## File system (external collaborator) -/

/-- The files the process can see: the content of each readable path, and
whether a path can be written. -/
structure FileSystem where
  content : String → Option String
  writable : String → Bool

/-- Go `ioutil.ReadFile`. -/
def ioutil.ReadFile (fs : FileSystem) (name : String) : String × error :=
  match fs.content name with
  | some data => (data, none)
  | none => ("", some ("open " ++ name ++ ": no such file or directory"))

/-- Go `ioutil.WriteFile`. -/
def ioutil.WriteFile (fs : FileSystem) (name data : String) : FileSystem × error :=
  if fs.writable name then
    ({ fs with content := fun f => if f = name then some data else fs.content f }, none)
  else (fs, some ("open " ++ name ++ ": permission denied"))

/-! ## commit.go -/

/-- Separates the Conventional Commits header, body, and footer. -/
def delimeter : String := "\n\n"

/-- The expression to match comments in a git commit (a raw string in the
source: backslash followed by `n`). -/
def commentExpr : String := "#.*\\n?"

/-- The string that must prepend a breaking change summary. -/
def breakingChange : String := "BREAKING CHANGE: "

/-- The symbol that can be added to a commit type to denote a breaking change. -/
def breakingSymbol : String := "!"

/-- The types required regardless of the user configuration. -/
def requiredKinds : List String := ["fix", "feat"]

/-- The compiled expressions of a commit; each is a pointer, nil until
compiled. -/
structure commitValidator where
  delimeter : Option Regexp := none
  header : Option Regexp := none
  breaking : Option Regexp := none
  breakingInBody : Option Regexp := none
  ticket : Option Regexp := none
  comments : Option Regexp := none
  deriving DecidableEq, Repr

/-- A git commit. -/
structure commit where
  file : String := ""
  kind : String := ""
  scope : String := ""
  subject : String := ""
  ticket : String := ""
  header : String := ""
  body : String := ""
  footer : String := ""
  message : String := ""
  hasTicket : Bool := false
  isBreaking : Bool := false
  validator : commitValidator := {}
  deriving DecidableEq, Repr

/-- The user-personalized values used in commit validation (config.go). -/
structure config where
  hooks : List String := []
  otherKinds : List String := []
  scopes : List String := []
  ticketFormat : String := ""
  deriving DecidableEq, Repr

/-- The pattern text of the header expression built by `setupValidators`. -/
def headerExpr (otherKinds userScopes : List String) : String :=
  let kinds := (requiredKinds ++ otherKinds).map (fun kind => "(" ++ kind ++ ")")
  let kindExpr := strings.Join kinds "|" ++ breakingSymbol ++ "?"
  let scopeExpr :=
    if userScopes.length > 0 then
      strings.Join (userScopes.map (fun scope => "(" ++ scope ++ ")")) "|"
    else "\\w+"
  "^(" ++ commentExpr ++ ")*" ++ kindExpr ++ "(\\(" ++ scopeExpr ++ "\\))?: .+"

/-- Creates the regexp matchers to be used in validation. -/
def setupValidators (comm : commit) (otherKinds userScopes : List String)
    (ticketFormat : String) : commit × error :=
  -- compile the delimiter into a regexp pattern
  let r1 := compilePair delimeter
  let c1 : commit := { comm with validator := { comm.validator with delimeter := r1.1 } }
  -- compile the regexp pattern for a header
  let s2 : commit × error :=
    if r1.2.isNone then
      let r := compilePair (headerExpr otherKinds userScopes)
      ({ c1 with validator := { c1.validator with header := r.1 } }, r.2)
    else (c1, r1.2)
  -- if it is a breaking commit, compile the patterns for the breaking notes
  let s3 : commit × error :=
    if s2.2.isNone ∧ s2.1.isBreaking then
      let breaking := breakingChange ++ ".+"
      let r := compilePair ("(^|\\n)" ++ breaking)
      let c : commit := { s2.1 with validator := { s2.1.validator with breaking := r.1 } }
      if r.2.isNone then
        let r' := compilePair ("^" ++ breaking)
        ({ c with validator := { c.validator with breakingInBody := r'.1 } }, r'.2)
      else (c, r.2)
    else s2
  -- if a ticket was passed, compile the pattern for the notes mentioning the ticket
  if s3.2.isNone ∧ s3.1.hasTicket then
    let r := compilePair ("(^|\\n).+\\b" ++ ticketFormat ++ "\\b")
    ({ s3.1 with validator := { s3.1.validator with ticket := r.1 } }, r.2)
  else s3

/-- The splitting step of `read` (the block run when the file was read and
is not empty): cut the message into sections and fill header, footer, body. -/
def readSections (comm : commit) (message : String) : Except Panic (commit × error) :=
  match comm.validator.delimeter with
  | none => .error .nilPointerDereference
  | some d =>
    let sections := d.Split message
    match sections with
    | [] => .error .indexOutOfRange
    | s0 :: _ =>
      -- the header is always the first in the index
      let c1 : commit := { comm with header := s0 }
      let total := sections.length
      let beg := 1
      let err : error :=
        if total = 1 ∧ (c1.hasTicket ∨ c1.isBreaking) then
          some "body or footer is required but missing"
        else none
      if err.isNone ∧ total > 1 then
        let end_ := total - 1
        match sections[end_]? with
        | none => .error .indexOutOfRange
        | some last =>
          -- the footer is always the last in the index
          let c2 : commit := { c1 with footer := last }
          if c2.hasTicket then
            -- the body is everything in between
            .ok ({ c2 with body := strings.Join ((sections.drop beg).take (end_ - beg)) delimeter },
              err)
          else .ok (c2, err)
      else .ok (c1, err)

/-- Reads the commit message from the commit file. -/
def read (fs : FileSystem) (comm : commit) : Except Panic (commit × error) :=
  let r := ioutil.ReadFile fs comm.file
  let err : error := if len r.1 = 0 then some "commit message is empty" else r.2
  if err.isNone then readSections comm r.1 else .ok (comm, err)

/-- Creates the commit message based on the struct values. -/
def build (comm : commit) : commit × error :=
  let scope := if len comm.scope > 0 then "(" ++ comm.scope ++ ")" else ""
  let c1 : commit := { comm with header := comm.kind ++ scope ++ ": " ++ comm.subject }
  let c2 : commit := if c1.isBreaking then { c1 with body := delimeter ++ breakingChange } else c1
  let c3 : commit :=
    if c2.hasTicket then { c2 with footer := delimeter ++ "closes " ++ c2.ticket } else c2
  ({ c3 with message := c3.header ++ c3.body ++ c3.footer }, none)

/-- The header check of `validate`: pattern first, length only when the
pattern matched (`if ... else if ...`). -/
def headerCheck (re : Regexp) (header : String) : error :=
  if !re.MatchString header then some "header is invalid"
  else if runeCount header > 50 then some "header cannot be longer than 50 characters"
  else none

/-- The condition of the breaking check of `validate`, with Go's
short-circuit evaluation of `&&` and `||`. -/
def breakingMissing (comm : commit) : Except Panic Bool :=
  if comm.isBreaking then
    match MatchString comm.validator.breaking comm.footer with
    | .error e => .error e
    | .ok true => .ok false
    | .ok false =>
      match MatchString comm.validator.breakingInBody comm.body with
      | .error e => .error e
      | .ok b => .ok (!b)
  else .ok false

/-- The condition of the ticket check of `validate`. -/
def ticketMissing (comm : commit) : Except Panic Bool :=
  if comm.hasTicket then
    match MatchString comm.validator.ticket comm.footer with
    | .error e => .error e
    | .ok b => .ok (!b)
  else .ok false

/-- Checks that the commit message is valid based on Conventional Commits
and the user configuration. -/
def validate (comm : commit) : Except Panic (commit × error) :=
  match comm.validator.header with
  | none => .error .nilPointerDereference
  | some re =>
    let err1 := headerCheck re comm.header
    match breakingMissing comm with
    | .error e => .error e
    | .ok bm =>
      let err2 : error := if bm then some (fmtErr err1 ++ "\nbreaking message missing") else err1
      match ticketMissing comm with
      | .error e => .error e
      | .ok tm =>
        let err3 : error := if tm then some (fmtErr err2 ++ "\nticket missing") else err2
        -- if there's an error, print it in a comment at the top
        if err3.isSome then .ok ({ comm with header := "# ERROR: %v\\n" ++ comm.header }, err3)
        else .ok (comm, err3)

/-- Writes the prepared commit message to the commit file. -/
def save (fs : FileSystem) (comm : commit) : FileSystem × error :=
  ioutil.WriteFile fs comm.file comm.message

/-- Builds a commit message, sets up the validators, validates the commit,
and saves it (if valid). -/
def write (fs : FileSystem) (comm : commit) (cfg : config) :
    Except Panic (commit × FileSystem × error) :=
  let b := build comm
  let s : commit × error :=
    if b.2.isNone then setupValidators b.1 cfg.otherKinds cfg.scopes cfg.ticketFormat else b
  if s.2.isNone then
    match validate s.1 with
    | .error e => .error e
    | .ok v =>
      if v.2.isNone then
        let w := save fs v.1
        .ok (v.1, w.1, w.2)
      else .ok (v.1, fs, v.2)
  else .ok (s.1, fs, s.2)

/-- Reads the commit message into the struct, sets up the validators, and
validates the commit message. -/
def parse (fs : FileSystem) (comm : commit) (cfg : config) : Except Panic (commit × error) :=
  match read fs comm with
  | .error e => .error e
  | .ok r =>
    let s : commit × error :=
      if r.2.isNone then setupValidators r.1 cfg.otherKinds cfg.scopes cfg.ticketFormat else r
    if s.2.isNone then validate s.1 else .ok s

/-- Creates a new commit. The named result `comm` is a pointer that is never
allocated, so it is nil when the first field is assigned. -/
def newCommit (location kind scope subject ticket : String) (isBreaking : Bool) :
    Except Panic commit :=
  let comm : Option commit := none
  match comm with
  | none => .error .nilPointerDereference
  | some c =>
    .ok { c with
      file := location, scope := scope, subject := subject, ticket := ticket,
      kind := strings.ToLower kind,
      isBreaking := isBreaking || strings.Contains kind breakingSymbol,
      hasTicket := decide (len ticket > 0) }

/-! ## Vocabulary of the statements -/

/-- Does the error value carry the given cause in its text? -/
def reports (err : error) (cause : String) : Bool :=
  match err with
  | none => false
  | some msg => strings.Contains msg cause

/-- Does the compiled pattern behind the pointer match the text? (`false`
for a nil pointer.) -/
def matchesOpt (re : Option Regexp) (s : String) : Bool :=
  match re with
  | none => false
  | some r => r.MatchString s

/-- The rule set of the commit is compiled: every pattern that `validate`
consults for this commit is non-nil. -/
def compiled (c : commit) : Prop :=
  c.validator.header.isSome = true ∧
  (c.isBreaking = true →
    c.validator.breaking.isSome = true ∧ c.validator.breakingInBody.isSome = true) ∧
  (c.hasTicket = true → c.validator.ticket.isSome = true)

/-- The header-pattern rule fails. -/
def headerPatternFails (c : commit) : Bool := !matchesOpt c.validator.header c.header

/-- The header-length rule fails: more than 50 code points. -/
def headerLengthFails (c : commit) : Bool := decide (runeCount c.header > 50)

/-- The breaking rule applies and fails: neither the footer matches the
breaking pattern nor the body the breaking-in-body pattern. -/
def breakingRuleFails (c : commit) : Bool :=
  c.isBreaking &&
    !(matchesOpt c.validator.breaking c.footer || matchesOpt c.validator.breakingInBody c.body)

/-- The ticket rule applies and fails. -/
def ticketRuleFails (c : commit) : Bool :=
  c.hasTicket && !matchesOpt c.validator.ticket c.footer

instance (c : commit) : Decidable (compiled c) := by
  unfold compiled
  infer_instance

/-- The error that `validate` accumulates from the header error and the
outcome of the breaking and ticket checks. -/
def accumulate (e1 : error) (bm tm : Bool) : error :=
  let e2 : error := if bm then some (fmtErr e1 ++ "\nbreaking message missing") else e1
  if tm then some (fmtErr e2 ++ "\nticket missing") else e2

/-- The expression that matches the code points `cs` one after the other
and then `k`. -/
def litChain (cs : List Char) (k : Node) : Node :=
  cs.foldr (fun c n => Node.concat (Node.literal c) n) k

/-- Parsed form of the breaking note `BREAKING CHANGE: .+`. -/
def noteProg : Node := litChain breakingChange.data (.plus .anyCharNotNL true)

/-- Parsed form of the delimiter pattern. -/
def delimeterProg : Node := .concat (.literal '\n') (.literal '\n')

/-- Parsed form of the breaking pattern `(^|\n)BREAKING CHANGE: .+`. -/
def breakingProg : Node :=
  .concat (.capture (.alternate .beginText (.literal '\n'))) noteProg

/-- Parsed form of the breaking-in-body pattern `^BREAKING CHANGE: .+`. -/
def breakingInBodyProg : Node := .concat .beginText noteProg

/-- Parsed form of the header pattern of the default configuration,
`^(#.*\n?)*(fix)|(feat)!?(\(\w+\))?: .+`. -/
def defaultHeaderProg : Node :=
  .alternate
    (.concat .beginText
      (.concat
        (.star (.capture (.concat (.literal '#')
          (.concat (.star .anyCharNotNL true) (.quest (.literal '\n') true)))) true)
        (.capture (litChain ['f', 'i'] (.literal 'x')))))
    (.concat (.capture (litChain ['f', 'e', 'a'] (.literal 't')))
      (.concat (.quest (.literal '!') true)
        (.concat
          (.quest (.capture (.concat (.literal '(')
            (.concat (.plus (.charClass .word false) true) (.literal ')')))) true)
          (litChain [':', ' '] (.plus .anyCharNotNL true)))))

/-- The code point before the position reached after reading `pre` from a
position whose previous code point is `p`. -/
def prevChar (p : Option Char) (pre : List Char) : Option Char :=
  match pre.getLast? with
  | some c => some c
  | none => p

/-- Some line of the text starts with the breaking note followed by at
least one more code point of that line. -/
def noteAtLineStart (s : String) : Prop :=
  ∃ (pre post : List Char) (ch : Char),
    s.data = pre ++ breakingChange.data ++ ch :: post ∧ ch ≠ '\n' ∧
    (pre = [] ∨ pre.getLast? = some '\n')

/-- The text starts with the breaking note followed by at least one more
code point on its first line. -/
def noteAtStart (s : String) : Prop :=
  ∃ (post : List Char) (ch : Char), s.data = breakingChange.data ++ ch :: post ∧ ch ≠ '\n'

/-- The default configuration: no extra kinds, no scopes. -/
def defaultConfig : config := {}

/-- The commit with rules compiled from a configuration. -/
def withRules (c : commit) (cfg : config) : commit :=
  (setupValidators c cfg.otherKinds cfg.scopes cfg.ticketFormat).1

/-- The three stages of `write` before the save all succeed: `build`
returns no error, `setupValidators` returns no error, and `validate` on the
result returns no error. -/
def stagesSucceed (c : commit) (cfg : config) : Prop :=
  (build c).2 = none ∧
  (setupValidators (build c).1 cfg.otherKinds cfg.scopes cfg.ticketFormat).2 = none ∧
  ∃ v, validate (withRules (build c).1 cfg) = .ok (v, none)

/-- The pattern text of the ticket expression built by `setupValidators`. -/
def ticketExpr (ticketFormat : String) : String := "(^|\\n).+\\b" ++ ticketFormat ++ "\\b"

/-- The patterns that `setupValidators` assembles for this commit and
configuration lie in the modelled fragment: the header pattern, and the
ticket pattern when the commit has a ticket (the other patterns are fixed). -/
def rulesInFragment (c : commit) (cfg : config) : Prop :=
  inFragment (headerExpr cfg.otherKinds cfg.scopes) = true ∧
  (c.hasTicket = true → inFragment (ticketExpr cfg.ticketFormat) = true)

instance (c : commit) (cfg : config) : Decidable (rulesInFragment c cfg) := by
  unfold rulesInFragment
  infer_instance

/-! ## Basic facts about the run-time model -/

theorem len_eq_zero_iff (s : String) : len s = 0 ↔ s = "" := by
  cases s with
  | mk cs =>
    simp only [len, String.utf8ByteSize_mk, String.utf8Len_eq_zero]
    constructor
    · intro h; rw [h]
    · intro h; exact congrArg String.data h

theorem len_pos_iff (s : String) : len s > 0 ↔ s ≠ "" := by
  rw [← not_iff_not, not_not, ← len_eq_zero_iff]
  omega

/-! ## The shape of `validate` on a compiled rule set -/

theorem validate_of_compiled (c : commit) (h : compiled c) :
    validate c =
      .ok (if (accumulate (if headerPatternFails c then some "header is invalid"
                else if headerLengthFails c then
                  some "header cannot be longer than 50 characters"
                else none) (breakingRuleFails c) (ticketRuleFails c)).isSome
            then { c with header := "# ERROR: %v\\n" ++ c.header } else c,
           accumulate (if headerPatternFails c then some "header is invalid"
                else if headerLengthFails c then
                  some "header cannot be longer than 50 characters"
                else none) (breakingRuleFails c) (ticketRuleFails c)) := by
  obtain ⟨hh, hb, ht⟩ := h
  obtain ⟨re, hre⟩ := Option.isSome_iff_exists.mp hh
  have e1 : headerCheck re c.header =
      (if headerPatternFails c then some "header is invalid"
        else if headerLengthFails c then some "header cannot be longer than 50 characters"
        else none) := by
    simp [headerCheck, headerPatternFails, headerLengthFails, matchesOpt, hre]
  have e2 : breakingMissing c = .ok (breakingRuleFails c) := by
    unfold breakingMissing breakingRuleFails
    cases hbr : c.isBreaking with
    | false => simp
    | true =>
      obtain ⟨h1, h2⟩ := hb hbr
      obtain ⟨r1, hr1⟩ := Option.isSome_iff_exists.mp h1
      obtain ⟨r2, hr2⟩ := Option.isSome_iff_exists.mp h2
      simp only [hr1, hr2, MatchString, matchesOpt, if_true]
      cases r1.MatchString c.footer <;> cases r2.MatchString c.body <;> rfl
  have e3 : ticketMissing c = .ok (ticketRuleFails c) := by
    unfold ticketMissing ticketRuleFails
    cases htk : c.hasTicket with
    | false => simp
    | true =>
      obtain ⟨r1, hr1⟩ := Option.isSome_iff_exists.mp (ht htk)
      simp [hr1, MatchString, matchesOpt]
  have key : ∀ (X : Prop) [Decidable X] (a b : commit) (e : error),
      (if X then (Except.ok (a, e) : Except Panic (commit × error)) else .ok (b, e)) =
        .ok (if X then a else b, e) := by
    intro X _ a b e
    split <;> rfl
  unfold validate
  simp only [hre, e1, e2, e3, accumulate]
  exact key _ _ _ _

/-- On a compiled rule set with no failing rule `validate` returns no error
and leaves the commit as it is. -/
theorem validate_ok_of_no_failure (c : commit) (h : compiled c)
    (hp : headerPatternFails c = false) (hl : headerLengthFails c = false)
    (hb : breakingRuleFails c = false) (ht : ticketRuleFails c = false) :
    validate c = .ok (c, none) := by
  rw [validate_of_compiled c h]
  simp [hp, hl, hb, ht, accumulate]

/-- The accumulated error is absent exactly when no check failed. -/
theorem accumulate_eq_none_iff (e1 : error) (bm tm : Bool) :
    accumulate e1 bm tm = none ↔ e1 = none ∧ bm = false ∧ tm = false := by
  cases bm <;> cases tm <;> simp [accumulate]

/-- The three header outcomes, for case analysis. -/
theorem headerError_cases (a b : Bool) :
    (if a then some "header is invalid"
      else if b then some "header cannot be longer than 50 characters" else none : error) = none ∨
    (if a then some "header is invalid"
      else if b then some "header cannot be longer than 50 characters" else none : error) =
        some "header is invalid" ∨
    (if a then some "header is invalid"
      else if b then some "header cannot be longer than 50 characters" else none : error) =
        some "header cannot be longer than 50 characters" := by
  cases a <;> cases b <;> simp

/-- What the accumulated error text reports, by evaluation of the twelve
possible texts. -/
theorem reports_accumulate (e1 : error)
    (he : e1 = none ∨ e1 = some "header is invalid" ∨
      e1 = some "header cannot be longer than 50 characters") (bm tm : Bool) :
    reports (accumulate e1 bm tm) "breaking message missing" = bm ∧
    reports (accumulate e1 bm tm) "ticket missing" = tm ∧
    reports (accumulate e1 bm tm) "header is invalid" = decide (e1 = some "header is invalid") ∧
    reports (accumulate e1 bm tm) "header cannot be longer than 50 characters" =
      decide (e1 = some "header cannot be longer than 50 characters") := by
  rcases he with rfl | rfl | rfl <;> cases bm <;> cases tm <;> decide

/-! ## The patterns that `setupValidators` compiles -/

theorem compile_delimeter :
    compilePair delimeter = (some ⟨delimeter, delimeterProg⟩, none) := by decide

theorem compile_breaking :
    compilePair ("(^|\\n)" ++ (breakingChange ++ ".+")) =
      (some ⟨"(^|\\n)BREAKING CHANGE: .+", breakingProg⟩, none) := by decide

theorem compile_breakingInBody :
    compilePair ("^" ++ (breakingChange ++ ".+")) =
      (some ⟨"^BREAKING CHANGE: .+", breakingInBodyProg⟩, none) := by decide

theorem compile_defaultHeader :
    compilePair (headerExpr [] []) =
      (some ⟨"^(#.*\\n?)*(fix)|(feat)!?(\\(\\w+\\))?: .+", defaultHeaderProg⟩, none) := by decide

/-- What a successful `setupValidators` leaves in the commit: only the
validator changes; delimiter and header patterns are compiled, the two
breaking patterns are compiled when the commit is breaking, the ticket
pattern when it has a ticket. -/
theorem setupValidators_ok (c : commit) (ks ss : List String) (tf : String)
    (h : (setupValidators c ks ss tf).2 = none) :
    ∃ (hre : Regexp) (tk : Option Regexp),
      compilePair (headerExpr ks ss) = (some hre, none) ∧
      (c.hasTicket = true → tk.isSome = true) ∧
      (c.hasTicket = false → tk = c.validator.ticket) ∧
      (setupValidators c ks ss tf).1 =
        { c with validator :=
          { delimeter := some ⟨delimeter, delimeterProg⟩,
            header := some hre,
            breaking :=
              if c.isBreaking then some ⟨"(^|\\n)BREAKING CHANGE: .+", breakingProg⟩
              else c.validator.breaking,
            breakingInBody :=
              if c.isBreaking then some ⟨"^BREAKING CHANGE: .+", breakingInBodyProg⟩
              else c.validator.breakingInBody,
            ticket := tk,
            comments := c.validator.comments } } := by
  unfold setupValidators at h ⊢
  simp only [compile_delimeter, compile_breaking, compile_breakingInBody] at h ⊢
  have hcp : ∀ e, compilePair e = (match regexp.Compile e with
      | .ok re => (some re, none) | .error msg => (none, some msg)) := fun _ => rfl
  cases hh : regexp.Compile (headerExpr ks ss) with
  | error msg =>
    simp [hcp, hh] at h
  | ok hre =>
    cases hb : c.isBreaking <;> cases ht : c.hasTicket
    · exact ⟨hre, c.validator.ticket, by simp [hcp, hh], by simp, by simp,
        by simp [hcp, hh, hb, ht]⟩
    · cases htc : regexp.Compile ("(^|\\n).+\\b" ++ tf ++ "\\b") with
      | error msg => simp [hcp, hh, hb, ht, htc] at h
      | ok tre =>
        exact ⟨hre, some tre, by simp [hcp, hh], by simp, by simp,
          by simp [hcp, hh, hb, ht, htc]⟩
    · exact ⟨hre, c.validator.ticket, by simp [hcp, hh], by simp, by simp,
        by simp [hcp, hh, hb, ht]⟩
    · cases htc : regexp.Compile ("(^|\\n).+\\b" ++ tf ++ "\\b") with
      | error msg => simp [hcp, hh, hb, ht, htc] at h
      | ok tre =>
        exact ⟨hre, some tre, by simp [hcp, hh], by simp, by simp,
          by simp [hcp, hh, hb, ht, htc]⟩

/-- A commit whose rules `setupValidators` compiled without error has a
compiled rule set. -/
theorem compiled_of_setupValidators (c : commit) (ks ss : List String) (tf : String)
    (h : (setupValidators c ks ss tf).2 = none) :
    compiled (setupValidators c ks ss tf).1 := by
  obtain ⟨hre, tk, _, h1, _, h3⟩ := setupValidators_ok c ks ss tf h
  rw [h3]
  refine ⟨rfl, ?_, ?_⟩
  · intro hb
    have hb' : c.isBreaking = true := hb
    simp [hb']
  · intro ht
    exact h1 ht

/-! ## Matching lemmas -/

theorem prevChar_nil (p : Option Char) : prevChar p [] = p := rfl

theorem prevChar_cons (p : Option Char) (c : Char) (cs : List Char) :
    prevChar p (c :: cs) = prevChar (some c) cs := by
  cases cs with
  | nil => rfl
  | cons d ds =>
    unfold prevChar
    rw [List.getLast?_cons_cons]
    cases h : (d :: ds).getLast? with
    | none => simp at h
    | some x => rfl

theorem prevChar_eq_none_iff (pre : List Char) : prevChar none pre = none ↔ pre = [] := by
  cases pre with
  | nil => simp [prevChar]
  | cons c cs =>
    have : ∃ x, (c :: cs).getLast? = some x := by
      cases h : (c :: cs).getLast? with
      | none => simp at h
      | some x => exact ⟨x, rfl⟩
    obtain ⟨x, hx⟩ := this
    simp [prevChar, hx]

theorem mem_run_concat (a b : Node) (p : Option Char) (s : List Char) (r : Pos) :
    r ∈ (Node.concat a b).run p s ↔ ∃ q, q ∈ a.run p s ∧ r ∈ b.run q.1 q.2 := by
  simp [Node.run, List.mem_flatMap]

theorem mem_run_literal (c : Char) (p : Option Char) (s : List Char) (r : Pos) :
    r ∈ (Node.literal c).run p s ↔ ∃ t, s = c :: t ∧ r = (some c, t) := by
  cases s with
  | nil => simp [Node.run]
  | cons d t =>
    by_cases hd : d = c
    · subst hd; simp [Node.run]
    · have hd' : ¬ c = d := fun h => hd h.symm
      simp [Node.run, hd, hd']

theorem mem_run_anyCharNotNL (p : Option Char) (s : List Char) (r : Pos) :
    r ∈ Node.anyCharNotNL.run p s ↔ ∃ d t, s = d :: t ∧ d ≠ '\n' ∧ r = (some d, t) := by
  cases s with
  | nil => simp [Node.run]
  | cons d t =>
    by_cases hd : d = '\n'
    · subst hd; simp [Node.run]
    · simp only [Node.run, hd, if_false, List.mem_singleton]
      constructor
      · intro h
        exact ⟨d, t, rfl, hd, h⟩
      · rintro ⟨d', t', h1, _, h3⟩
        simp only [List.cons.injEq] at h1
        obtain ⟨rfl, rfl⟩ := h1
        exact h3

theorem self_mem_starLoop (step : Option Char → List Char → List Pos) (g : Bool) (fuel : Nat)
    (p : Option Char) (s : List Char) : (p, s) ∈ starLoop step g fuel p s := by
  cases fuel with
  | zero => simp [starLoop]
  | succ n => cases g <;> simp [starLoop]

/-- One or more code points other than newline: a match exists exactly when
the text starts with such a code point. -/
theorem exists_mem_run_plus_any (g : Bool) (p : Option Char) (s : List Char) :
    (∃ r, r ∈ (Node.plus .anyCharNotNL g).run p s) ↔ ∃ d t, s = d :: t ∧ d ≠ '\n' := by
  constructor
  · rintro ⟨r, hr⟩
    simp only [Node.run, List.mem_flatMap] at hr
    obtain ⟨q, hq, _⟩ := hr
    have := (mem_run_anyCharNotNL p s q).mp (by simpa [Node.run] using hq)
    obtain ⟨d, t, h1, h2, _⟩ := this
    exact ⟨d, t, h1, h2⟩
  · rintro ⟨d, t, rfl, hd⟩
    refine ⟨(some d, t), ?_⟩
    simp only [Node.run, List.mem_flatMap]
    refine ⟨(some d, t), by simp [hd], ?_⟩
    exact self_mem_starLoop _ _ _ _ _

theorem mem_run_litChain (cs : List Char) (k : Node) (p : Option Char) (s : List Char)
    (r : Pos) :
    r ∈ (litChain cs k).run p s ↔ ∃ t, s = cs ++ t ∧ r ∈ k.run (prevChar p cs) t := by
  induction cs generalizing p s with
  | nil => simp [litChain, prevChar]
  | cons c cs ih =>
    have hunf : litChain (c :: cs) k = Node.concat (Node.literal c) (litChain cs k) := rfl
    rw [hunf, mem_run_concat]
    constructor
    · rintro ⟨q, hq, hr⟩
      obtain ⟨t, rfl, rfl⟩ := (mem_run_literal c p s q).mp hq
      obtain ⟨t', rfl, hr'⟩ := (ih (some c) t).mp hr
      exact ⟨t', by simp, by rw [prevChar_cons]; exact hr'⟩
    · rintro ⟨t, rfl, hr⟩
      refine ⟨(some c, cs ++ t), (mem_run_literal c p _ _).mpr ⟨cs ++ t, by simp, rfl⟩, ?_⟩
      rw [prevChar_cons] at hr
      exact (ih (some c) (cs ++ t)).mpr ⟨t, rfl, hr⟩

/-- A run of code points of a class can be consumed by the loop over that
class. -/
theorem mem_starLoop_class (cls : PerlClass) (g : Bool) (w rest : List Char)
    (hw : ∀ ch ∈ w, cls.mem ch = true) (p : Option Char) (fuel : Nat) (hf : w.length ≤ fuel) :
    (prevChar p w, rest) ∈
      starLoop (fun q t => (Node.charClass cls false).run q t) g fuel p (w ++ rest) := by
  induction w generalizing p fuel with
  | nil => exact self_mem_starLoop _ _ _ _ _
  | cons d w ih =>
    cases fuel with
    | zero => simp at hf
    | succ n =>
      have hd : cls.mem d = true := hw d (by simp)
      have hrec := ih (fun ch hch => hw ch (by simp [hch])) (some d) n
        (by simpa using hf)
      rw [prevChar_cons]
      have hmore : (prevChar (some d) w, rest) ∈
          (((Node.charClass cls false).run p (d :: w ++ rest)).filter
            (fun r => decide (r.2.length < (d :: w ++ rest).length))).flatMap
            (fun r => starLoop (fun q t => (Node.charClass cls false).run q t) g n r.1 r.2) := by
        simp only [Node.run, hd, List.mem_flatMap]
        refine ⟨(some d, w ++ rest), ?_, hrec⟩
        simp [hd]
      cases g
      · simp only [starLoop, List.cons_append]
        exact List.mem_cons_of_mem _ hmore
      · simp only [starLoop, List.cons_append]
        exact List.mem_append_left _ hmore

/-- Searching from a position succeeds exactly when the expression matches
at the position reached after some prefix of the text. -/
theorem matchFrom_iff (n : Node) (p : Option Char) (s : List Char) :
    n.matchFrom p s = true ↔
      ∃ pre suf r, s = pre ++ suf ∧ r ∈ n.run (prevChar p pre) suf := by
  induction s generalizing p with
  | nil =>
    simp only [Node.matchFrom, Bool.not_eq_true', List.isEmpty_eq_false]
    constructor
    · intro h
      obtain ⟨r, hr⟩ := List.exists_mem_of_ne_nil _ h
      exact ⟨[], [], r, rfl, hr⟩
    · rintro ⟨pre, suf, r, h, hr⟩
      have h1 : pre = [] := by
        cases pre with
        | nil => rfl
        | cons a l => simp at h
      have h2 : suf = [] := by
        cases suf with
        | nil => rfl
        | cons a l => simp at h
      subst h1 h2
      exact List.ne_nil_of_mem hr
  | cons c t ih =>
    simp only [Node.matchFrom, Bool.or_eq_true, Bool.not_eq_true', List.isEmpty_eq_false, ih]
    constructor
    · rintro (h | ⟨pre, suf, r, h, hr⟩)
      · obtain ⟨r, hr⟩ := List.exists_mem_of_ne_nil _ h
        exact ⟨[], c :: t, r, rfl, hr⟩
      · refine ⟨c :: pre, suf, r, by simp [h], ?_⟩
        rw [prevChar_cons]
        exact hr
    · rintro ⟨pre, suf, r, h, hr⟩
      cases pre with
      | nil =>
        left
        simp only [List.nil_append] at h
        subst h
        exact List.ne_nil_of_mem hr
      | cons a l =>
        right
        simp only [List.cons_append, List.cons.injEq] at h
        obtain ⟨rfl, rfl⟩ := h
        rw [prevChar_cons] at hr
        exact ⟨l, suf, r, rfl, hr⟩

/-- A match right at the start of the text is found by the search. -/
theorem matchFrom_of_mem_run (n : Node) (p : Option Char) (s : List Char) (r : Pos)
    (h : r ∈ n.run p s) : n.matchFrom p s = true :=
  (matchFrom_iff n p s).mpr ⟨[], s, r, rfl, h⟩

/-- One or more code points of a class: a non-empty run of the class is
consumed whole. -/
theorem mem_run_plus_class (cls : PerlClass) (g : Bool) (w rest : List Char) (hne : w ≠ [])
    (hw : ∀ ch ∈ w, cls.mem ch = true) (p : Option Char) :
    (prevChar p w, rest) ∈ (Node.plus (.charClass cls false) g).run p (w ++ rest) := by
  cases w with
  | nil => exact absurd rfl hne
  | cons d w =>
    have hd : cls.mem d = true := hw d (by simp)
    simp only [Node.run, List.mem_flatMap, List.cons_append]
    refine ⟨(some d, w ++ rest), by simp [hd], ?_⟩
    rw [prevChar_cons]
    exact mem_starLoop_class cls g w rest (fun ch hch => hw ch (by simp [hch])) (some d) _
      (by simp)

/-- The default header pattern matches every text that starts with `fix`. -/
theorem defaultHeader_matches_fix (t : List Char) :
    defaultHeaderProg.matchFrom none ('f' :: 'i' :: 'x' :: t) = true := by
  apply matchFrom_of_mem_run _ _ _ (some 'x', t)
  unfold defaultHeaderProg
  rw [Node.run, List.mem_append]
  left
  rw [mem_run_concat]
  refine ⟨(none, 'f' :: 'i' :: 'x' :: t), by simp [Node.run], ?_⟩
  rw [mem_run_concat]
  refine ⟨(none, 'f' :: 'i' :: 'x' :: t), ?_, ?_⟩
  · rw [Node.run]
    exact self_mem_starLoop _ _ _ _ _
  rw [Node.run]
  exact (mem_run_litChain ['f', 'i'] (.literal 'x') none _ _).mpr
    ⟨'x' :: t, rfl, (mem_run_literal _ _ _ _).mpr ⟨t, rfl, rfl⟩⟩

/-- The default header pattern matches `feat(<word>): ` followed by a code
point other than newline. -/
theorem defaultHeader_matches_feat (w : List Char) (hne : w ≠ [])
    (hw : ∀ ch ∈ w, isWordChar ch = true) (d : Char) (hd : d ≠ '\n') (t : List Char) :
    defaultHeaderProg.matchFrom none
      (['f', 'e', 'a', 't', '('] ++ w ++ [')', ':', ' '] ++ d :: t) = true := by
  apply matchFrom_of_mem_run _ _ _ (some d, t)
  unfold defaultHeaderProg
  rw [Node.run, List.mem_append]
  right
  rw [mem_run_concat]
  refine ⟨(some 't', '(' :: (w ++ ')' :: ':' :: ' ' :: d :: t)), ?_, ?_⟩
  · rw [Node.run]
    exact (mem_run_litChain ['f', 'e', 'a'] (.literal 't') none _ _).mpr
      ⟨'t' :: '(' :: (w ++ ')' :: ':' :: ' ' :: d :: t), by simp,
        (mem_run_literal _ _ _ _).mpr ⟨_, rfl, rfl⟩⟩
  rw [mem_run_concat]
  refine ⟨(some 't', '(' :: (w ++ ')' :: ':' :: ' ' :: d :: t)), ?_, ?_⟩
  · simp [Node.run]
  rw [mem_run_concat]
  refine ⟨(some ')', ':' :: ' ' :: d :: t), ?_, ?_⟩
  · rw [Node.run]
    simp only [if_true, List.mem_append]
    left
    rw [Node.run, mem_run_concat]
    refine ⟨(some '(', w ++ ')' :: ':' :: ' ' :: d :: t), (mem_run_literal _ _ _ _).mpr
      ⟨_, rfl, rfl⟩, ?_⟩
    rw [mem_run_concat]
    refine ⟨(prevChar (some '(') w, ')' :: ':' :: ' ' :: d :: t),
      mem_run_plus_class .word true w _ hne hw _, ?_⟩
    exact (mem_run_literal _ _ _ _).mpr ⟨_, rfl, rfl⟩
  · refine (mem_run_litChain [':', ' '] _ _ _ _).mpr ⟨d :: t, rfl, ?_⟩
    simp only [Node.run, List.mem_flatMap]
    exact ⟨(some d, t), by simp [hd], self_mem_starLoop _ _ _ _ _⟩

/-- The breaking note matches at a position exactly when the remaining text
starts with the note followed by a code point other than newline. -/
theorem exists_mem_run_noteProg (p : Option Char) (s : List Char) :
    (∃ r, r ∈ noteProg.run p s) ↔
      ∃ d t, s = breakingChange.data ++ d :: t ∧ d ≠ '\n' := by
  unfold noteProg
  constructor
  · rintro ⟨r, hr⟩
    obtain ⟨t, rfl, hr'⟩ := (mem_run_litChain _ _ _ _ _).mp hr
    obtain ⟨d, t', rfl, hd⟩ := (exists_mem_run_plus_any _ _ _).mp ⟨r, hr'⟩
    exact ⟨d, t', rfl, hd⟩
  · rintro ⟨d, t, rfl, hd⟩
    obtain ⟨r, hr⟩ := (exists_mem_run_plus_any true (prevChar p breakingChange.data)
      (d :: t)).mpr ⟨d, t, rfl, hd⟩
    exact ⟨r, (mem_run_litChain _ _ _ _ _).mpr ⟨d :: t, rfl, hr⟩⟩

/-- The breaking pattern finds a match exactly when some line of the text
starts with the note followed by a further code point of that line. -/
theorem breakingProg_matchFrom_iff (s : List Char) :
    breakingProg.matchFrom none s = true ↔
      ∃ (pre post : List Char) (ch : Char),
        s = pre ++ breakingChange.data ++ ch :: post ∧ ch ≠ '\n' ∧
        (pre = [] ∨ pre.getLast? = some '\n') := by
  rw [matchFrom_iff]
  constructor
  · rintro ⟨pre, suf, r, rfl, hr⟩
    unfold breakingProg at hr
    obtain ⟨q, hq, hr'⟩ := (mem_run_concat _ _ _ _ _).mp hr
    rw [Node.run, Node.run, List.mem_append] at hq
    rcases hq with hq | hq
    · have hp : prevChar none pre = none ∧ q = (prevChar none pre, suf) := by
        by_cases h0 : prevChar none pre = none
        · simpa [Node.run, h0] using hq
        · simp [Node.run, h0] at hq
      obtain ⟨hp0, rfl⟩ := hp
      obtain ⟨d, t, rfl, hd⟩ := (exists_mem_run_noteProg _ _).mp ⟨r, hr'⟩
      have hpre : pre = [] := (prevChar_eq_none_iff pre).mp hp0
      exact ⟨pre, t, d, by simp, hd, Or.inl hpre⟩
    · obtain ⟨t, rfl, rfl⟩ := (mem_run_literal _ _ _ _).mp hq
      obtain ⟨d, t', rfl, hd⟩ := (exists_mem_run_noteProg _ _).mp ⟨r, hr'⟩
      exact ⟨pre ++ ['\n'], t', d, by simp, hd, Or.inr (List.getLast?_concat pre)⟩
  · rintro ⟨pre, post, ch, rfl, hch, hpre⟩
    obtain ⟨r, hr⟩ := (exists_mem_run_noteProg (some '\n')
      (breakingChange.data ++ ch :: post)).mpr ⟨ch, post, rfl, hch⟩
    obtain ⟨r0, hr0⟩ := (exists_mem_run_noteProg none
      (breakingChange.data ++ ch :: post)).mpr ⟨ch, post, rfl, hch⟩
    rcases hpre with rfl | hlast
    · refine ⟨[], breakingChange.data ++ ch :: post, r0, by simp, ?_⟩
      unfold breakingProg
      refine (mem_run_concat _ _ _ _ _).mpr ⟨(none, breakingChange.data ++ ch :: post), ?_, hr0⟩
      simp [Node.run, prevChar]
    · obtain ⟨pre0, rfl⟩ := List.getLast?_eq_some_iff.mp hlast
      refine ⟨pre0, '\n' :: (breakingChange.data ++ ch :: post), r, by simp, ?_⟩
      unfold breakingProg
      refine (mem_run_concat _ _ _ _ _).mpr
        ⟨(some '\n', breakingChange.data ++ ch :: post), ?_, hr⟩
      rw [Node.run, Node.run, List.mem_append]
      right
      exact (mem_run_literal _ _ _ _).mpr ⟨_, rfl, rfl⟩

/-- The breaking-in-body pattern finds a match exactly when the text starts
with the note followed by a further code point of the first line. -/
theorem breakingInBodyProg_matchFrom_iff (s : List Char) :
    breakingInBodyProg.matchFrom none s = true ↔
      ∃ (post : List Char) (ch : Char), s = breakingChange.data ++ ch :: post ∧ ch ≠ '\n' := by
  rw [matchFrom_iff]
  constructor
  · rintro ⟨pre, suf, r, rfl, hr⟩
    unfold breakingInBodyProg at hr
    obtain ⟨q, hq, hr'⟩ := (mem_run_concat _ _ _ _ _).mp hr
    have hp : prevChar none pre = none ∧ q = (prevChar none pre, suf) := by
      by_cases h0 : prevChar none pre = none
      · simpa [Node.run, h0] using hq
      · simp [Node.run, h0] at hq
    obtain ⟨hp0, rfl⟩ := hp
    obtain ⟨d, t, rfl, hd⟩ := (exists_mem_run_noteProg _ _).mp ⟨r, hr'⟩
    have hpre : pre = [] := (prevChar_eq_none_iff pre).mp hp0
    subst hpre
    exact ⟨t, d, by simp, hd⟩
  · rintro ⟨post, ch, rfl, hch⟩
    obtain ⟨r0, hr0⟩ := (exists_mem_run_noteProg none
      (breakingChange.data ++ ch :: post)).mpr ⟨ch, post, rfl, hch⟩
    refine ⟨[], breakingChange.data ++ ch :: post, r0, by simp, ?_⟩
    unfold breakingInBodyProg
    refine (mem_run_concat _ _ _ _ _).mpr ⟨(none, breakingChange.data ++ ch :: post), ?_, hr0⟩
    simp [Node.run, prevChar]

/-! ## Splitting on the delimiter -/

theorem run_delimeterProg_of_not_prefix (p : Option Char) (s : List Char)
    (h : ['\n', '\n'].isPrefixOf s = false) : delimeterProg.run p s = [] := by
  unfold delimeterProg
  match s with
  | [] => simp [Node.run]
  | [c] =>
    by_cases hc : c = '\n' <;> simp [Node.run, hc]
  | c :: d :: t =>
    by_cases hc : c = '\n'
    · by_cases hd : d = '\n'
      · subst hc hd
        simp [List.isPrefixOf] at h
      · simp [Node.run, hc, hd]
    · simp [Node.run, hc]

/-- A text without the delimiter is a single section. -/
theorem splitLoop_no_delimeter (s : List Char) (hno : containsList s ['\n', '\n'] = false)
    (fuel : Nat) (hf : s.length < fuel) (p : Option Char) (cur : List Char)
    (afterMatch atStart : Bool) :
    splitLoop delimeterProg fuel p s cur afterMatch atStart = [cur ++ s] := by
  induction s generalizing fuel p cur afterMatch atStart with
  | nil =>
    cases fuel with
    | zero => simp at hf
    | succ n =>
      have h0 : delimeterProg.run p [] = [] := run_delimeterProg_of_not_prefix p [] rfl
      simp [splitLoop, h0]
  | cons c t ih =>
    cases fuel with
    | zero => simp at hf
    | succ n =>
      simp only [containsList, Bool.or_eq_false_iff] at hno
      have h0 : delimeterProg.run p (c :: t) = [] :=
        run_delimeterProg_of_not_prefix p (c :: t) hno.1
      simp only [splitLoop, h0, List.head?_nil]
      rw [ih hno.2 n (by simpa using hf)]
      simp

/-- `Split` with the compiled delimiter on a non-empty text that does not
contain the delimiter yields the text as the only section. -/
theorem Split_no_delimeter (message : String) (hne : message ≠ "")
    (hno : strings.Contains message delimeter = false) :
    Regexp.Split ⟨delimeter, delimeterProg⟩ message = [message] := by
  have hlen : ¬ (len message = 0) := fun h => hne ((len_eq_zero_iff message).mp h)
  have hno' : containsList message.data ['\n', '\n'] = false := hno
  simp only [Regexp.Split, hlen, and_false, if_false]
  rw [splitLoop_no_delimeter message.data hno' _ (by simp)]
  simp

/-! ## Claims -/

/-- C1 (the code at the failing inputs): with the rules compiled from the
default configuration, `validate` accepts the header `fix`, which has nothing
after the kind, and the header `chore: feat: x`, whose kind is not allowed:
the alternation of the kinds is not grouped in the header pattern. -/
theorem C1_header_pattern_accepts_malformed :
    (setupValidators { header := "fix" } [] [] "").2 = none ∧
    validate (withRules { header := "fix" } defaultConfig) =
      .ok (withRules { header := "fix" } defaultConfig, none) ∧
    validate (withRules { header := "chore: feat: x" } defaultConfig) =
      .ok (withRules { header := "chore: feat: x" } defaultConfig, none) := by
  decide

/-- C2: with the rules compiled from a configuration without extra kinds
and scopes, a non-breaking, ticket-less commit whose header is `fix: <subject>`
or `feat(<scope>): <subject>`, with a non-empty single-line subject, a
non-empty scope of word characters and at most 50 code points, has its rules
compiled without error and `validate` returns no error and leaves the commit
as it is. -/
theorem C2_wellformed_headers_validate (c : commit) (tf subject scope : String)
    (hb : c.isBreaking = false) (ht : c.hasTicket = false)
    (hsub : subject ≠ "") (hline : '\n' ∉ subject.data)
    (hscope : scope ≠ "") (hword : ∀ ch ∈ scope.data, isWordChar ch = true)
    (hh : c.header = "fix: " ++ subject ∨ c.header = "feat(" ++ scope ++ "): " ++ subject)
    (h50 : runeCount c.header ≤ 50) :
    (setupValidators c [] [] tf).2 = none ∧
    validate (setupValidators c [] [] tf).1 = .ok ((setupValidators c [] [] tf).1, none) := by
  have hok : (setupValidators c [] [] tf).2 = none := by
    simp [setupValidators, compile_delimeter, compile_defaultHeader, hb, ht]
  refine ⟨hok, ?_⟩
  obtain ⟨hre, tk, h1, _, _, h3⟩ := setupValidators_ok c [] [] tf hok
  rw [compile_defaultHeader] at h1
  have hre' : hre = ⟨"^(#.*\\n?)*(fix)|(feat)!?(\\(\\w+\\))?: .+", defaultHeaderProg⟩ := by
    simpa using h1.symm
  subst hre'
  have hcomp := compiled_of_setupValidators c [] [] tf hok
  obtain ⟨d, t, hdt⟩ : ∃ d t, subject.data = d :: t := by
    cases hs : subject.data with
    | nil => exact absurd (String.ext hs) hsub
    | cons d t => exact ⟨d, t, rfl⟩
  have hd : d ≠ '\n' := by
    intro hd
    apply hline
    rw [hdt, hd]
    simp
  have hmatch : defaultHeaderProg.matchFrom none c.header.data = true := by
    rcases hh with hh | hh
    · rw [hh, String.data_append, hdt]
      exact defaultHeader_matches_fix _
    · have hw : scope.data ≠ [] := fun h => hscope (String.ext h)
      have := defaultHeader_matches_feat scope.data hw hword d hd t
      rw [hh]
      simp only [String.data_append, hdt]
      simpa using this
  apply validate_ok_of_no_failure _ hcomp
  · rw [h3]
    simp [headerPatternFails, matchesOpt, Regexp.MatchString, hmatch]
  · rw [h3]
    simp only [headerLengthFails, decide_eq_false_iff_not]
    omega
  · rw [h3]
    simp [breakingRuleFails, hb]
  · rw [h3]
    simp [ticketRuleFails, ht]

theorem C2_wellformed_headers_validate_witness :
    (setupValidators { header := "feat(parser): add x" } [] [] "").2 = none ∧
    validate (setupValidators { header := "feat(parser): add x" } [] [] "").1 =
      .ok ((setupValidators { header := "feat(parser): add x" } [] [] "").1, none) :=
  C2_wellformed_headers_validate { header := "feat(parser): add x" } "" "add x" "parser"
    rfl rfl (by decide) (by decide) (by decide) (by decide) (Or.inr (by decide)) (by decide)

/-- C3 (the code at the failing input): for the breaking commit of kind
`feat` and subject `add x`, `build` followed by `setupValidators` (default
configuration) and `validate` returns an error that reports
`breaking message missing`, although body and footer are the ones `build`
produced. -/
theorem C3_built_breaking_commit_fails :
    (build { kind := "feat", subject := "add x", isBreaking := true }).1.body =
      "\n\nBREAKING CHANGE: " ∧
    (validate (withRules
      (build { kind := "feat", subject := "add x", isBreaking := true }).1 defaultConfig)).map
        Prod.snd = .ok (some "%!s(<nil>)\nbreaking message missing") ∧
    reports (some "%!s(<nil>)\nbreaking message missing") "breaking message missing" = true := by
  decide

/-- C4: `build` never fails; on a commit whose body and footer are still
empty it sets the header to kind, parenthesised scope (omitted when the scope
is empty), `: ` and subject, the body to the breaking note when `isBreaking`,
the footer to `closes <ticket>` when `hasTicket`, and the message to header,
body and footer joined, leaving every other field as it was. -/
theorem C4_build (file kind scope subject ticket header message : String)
    (hasTicket isBreaking : Bool) (v : commitValidator) :
    build { file := file, kind := kind, scope := scope, subject := subject, ticket := ticket,
            header := header, body := "", footer := "", message := message,
            hasTicket := hasTicket, isBreaking := isBreaking, validator := v } =
      ({ file := file, kind := kind, scope := scope, subject := subject, ticket := ticket,
         header := kind ++ (if scope = "" then "" else "(" ++ scope ++ ")") ++ ": " ++ subject,
         body := if isBreaking then "\n\nBREAKING CHANGE: " else "",
         footer := if hasTicket then "\n\ncloses " ++ ticket else "",
         message := kind ++ (if scope = "" then "" else "(" ++ scope ++ ")") ++ ": " ++ subject ++
           (if isBreaking then "\n\nBREAKING CHANGE: " else "") ++
           (if hasTicket then "\n\ncloses " ++ ticket else ""),
         hasTicket := hasTicket, isBreaking := isBreaking, validator := v }, none) := by
  by_cases hs : scope = ""
  · subst hs
    have h0 : len "" = 0 := (len_eq_zero_iff "").mpr rfl
    cases isBreaking <;> cases hasTicket <;> simp [build, h0, delimeter, breakingChange]
  · have h0 : 0 < len scope := (len_pos_iff scope).mpr hs
    cases isBreaking <;> cases hasTicket <;> simp [build, h0, hs, delimeter, breakingChange]

/-- C5: on a compiled rule set `validate` returns (it does not fault), the
error is absent exactly when none of the four rules fails, and the error text
reports `breaking message missing` exactly when the breaking rule applies
and fails and `ticket missing` exactly when the ticket rule applies and
fails, whatever the earlier rules did. -/
theorem C5_validate_accumulates (c : commit) (h : compiled c) :
    ∃ c' err, validate c = .ok (c', err) ∧
      (err = none ↔ headerPatternFails c = false ∧ headerLengthFails c = false ∧
        breakingRuleFails c = false ∧ ticketRuleFails c = false) ∧
      (reports err "breaking message missing" = true ↔ breakingRuleFails c = true) ∧
      (reports err "ticket missing" = true ↔ ticketRuleFails c = true) := by
  refine ⟨_, _, validate_of_compiled c h, ?_, ?_, ?_⟩
  · rw [accumulate_eq_none_iff]
    cases headerPatternFails c <;> cases headerLengthFails c <;> simp
  · rw [(reports_accumulate _ (headerError_cases _ _) _ _).1]
  · rw [(reports_accumulate _ (headerError_cases _ _) _ _).2.1]

theorem C5_validate_accumulates_witness :
    compiled (withRules { header := "chore: x", isBreaking := true, hasTicket := true }
      defaultConfig) ∧
    ∃ c' err, validate (withRules { header := "chore: x", isBreaking := true, hasTicket := true }
        defaultConfig) = .ok (c', err) ∧
      (err = none ↔
        headerPatternFails (withRules { header := "chore: x", isBreaking := true, hasTicket := true }
          defaultConfig) = false ∧
        headerLengthFails (withRules { header := "chore: x", isBreaking := true, hasTicket := true }
          defaultConfig) = false ∧
        breakingRuleFails (withRules { header := "chore: x", isBreaking := true, hasTicket := true }
          defaultConfig) = false ∧
        ticketRuleFails (withRules { header := "chore: x", isBreaking := true, hasTicket := true }
          defaultConfig) = false) ∧
      (reports err "breaking message missing" = true ↔
        breakingRuleFails (withRules { header := "chore: x", isBreaking := true, hasTicket := true }
          defaultConfig) = true) ∧
      (reports err "ticket missing" = true ↔
        ticketRuleFails (withRules { header := "chore: x", isBreaking := true, hasTicket := true }
          defaultConfig) = true) :=
  ⟨by decide, C5_validate_accumulates _ (by decide)⟩

/-- C6 (counterexample): the header `chore: ` followed by 44 `x` has 51 code
points and does not match the header pattern of the default configuration;
`validate` returns `header is invalid`, which does not report the length
cause. -/
theorem C6_counterexample :
    runeCount "chore: xxxxxxxxxxxxxxxxxxxxxxxxxxxxxxxxxxxxxxxxxxxx" = 51 ∧
    headerPatternFails (withRules { header := "chore: xxxxxxxxxxxxxxxxxxxxxxxxxxxxxxxxxxxxxxxxxxxx" } defaultConfig) = true ∧
    (validate (withRules { header := "chore: xxxxxxxxxxxxxxxxxxxxxxxxxxxxxxxxxxxxxxxxxxxx" } defaultConfig)).map Prod.snd =
      .ok (some "header is invalid") ∧
    reports (some "header is invalid") "header cannot be longer than 50 characters" = false := by
  decide

/-- C6 (amended): the length rule is evaluated only when the header matches
the header pattern. For a header of more than 50 code points on a compiled
rule set, `validate` reports the length cause exactly when the header matches
the pattern; when it does not match, the error reports `header is invalid`
and not the length cause. -/
theorem C6_length_checked_only_on_matching_header (c : commit) (h : compiled c)
    (hl : runeCount c.header > 50) :
    ∃ c' err, validate c = .ok (c', err) ∧
      (reports err "header cannot be longer than 50 characters" = true ↔
        headerPatternFails c = false) ∧
      (headerPatternFails c = true →
        reports err "header is invalid" = true ∧
        reports err "header cannot be longer than 50 characters" = false) := by
  have hl' : headerLengthFails c = true := by simpa [headerLengthFails] using hl
  refine ⟨_, _, validate_of_compiled c h, ?_, ?_⟩
  · rw [(reports_accumulate _ (headerError_cases _ _) _ _).2.2.2]
    cases headerPatternFails c <;> simp [hl']
  · intro hp
    rw [(reports_accumulate _ (headerError_cases _ _) _ _).2.2.2,
      (reports_accumulate _ (headerError_cases _ _) _ _).2.2.1]
    simp [hp]

theorem C6_length_checked_only_on_matching_header_witness :
    runeCount (withRules { header := "fix: xxxxxxxxxxxxxxxxxxxxxxxxxxxxxxxxxxxxxxxxxxxxxx" } defaultConfig).header > 50 ∧
    ∃ c' err, validate (withRules { header := "fix: xxxxxxxxxxxxxxxxxxxxxxxxxxxxxxxxxxxxxxxxxxxxxx" } defaultConfig) = .ok (c', err) ∧
      (reports err "header cannot be longer than 50 characters" = true ↔
        headerPatternFails (withRules { header := "fix: xxxxxxxxxxxxxxxxxxxxxxxxxxxxxxxxxxxxxxxxxxxxxx" } defaultConfig) = false) ∧
      (headerPatternFails (withRules { header := "fix: xxxxxxxxxxxxxxxxxxxxxxxxxxxxxxxxxxxxxxxxxxxxxx" } defaultConfig) = true →
        reports err "header is invalid" = true ∧
        reports err "header cannot be longer than 50 characters" = false) :=
  ⟨by decide, C6_length_checked_only_on_matching_header _ (by decide) (by decide)⟩

/-- C7: for a header that matches the header pattern (compiled rule set),
`validate` reports the length cause exactly when the header has more than 50
code points; with at most 50 code points and no failing breaking or ticket
rule it returns no error. -/
theorem C7_length_in_code_points (c : commit) (h : compiled c)
    (hm : headerPatternFails c = false) :
    ∃ c' err, validate c = .ok (c', err) ∧
      (reports err "header cannot be longer than 50 characters" = true ↔
        50 < runeCount c.header) ∧
      (runeCount c.header ≤ 50 → breakingRuleFails c = false → ticketRuleFails c = false →
        err = none) := by
  refine ⟨_, _, validate_of_compiled c h, ?_, ?_⟩
  · rw [(reports_accumulate _ (headerError_cases _ _) _ _).2.2.2]
    simp [hm, headerLengthFails]
  · intro h50 hb ht
    rw [accumulate_eq_none_iff]
    simp [hm, hb, ht, headerLengthFails, h50]

theorem C7_length_in_code_points_witness :
    runeCount "fix: ééééééééééééééééééééééééééééééééééééééééééééé" = 50 ∧ len "fix: ééééééééééééééééééééééééééééééééééééééééééééé" = 95 ∧
    ∃ c' err, validate (withRules { header := "fix: ééééééééééééééééééééééééééééééééééééééééééééé" } defaultConfig) = .ok (c', err) ∧
      (reports err "header cannot be longer than 50 characters" = true ↔
        50 < runeCount (withRules { header := "fix: ééééééééééééééééééééééééééééééééééééééééééééé" } defaultConfig).header) ∧
      (runeCount (withRules { header := "fix: ééééééééééééééééééééééééééééééééééééééééééééé" } defaultConfig).header ≤ 50 →
        breakingRuleFails (withRules { header := "fix: ééééééééééééééééééééééééééééééééééééééééééééé" } defaultConfig) = false →
        ticketRuleFails (withRules { header := "fix: ééééééééééééééééééééééééééééééééééééééééééééé" } defaultConfig) = false →
        err = none) :=
  ⟨by decide, by decide, C7_length_in_code_points _ (by decide) (by decide)⟩

/-- C8: for a breaking, ticket-less commit whose rules `setupValidators`
compiled without error, `validate` returns, and its error reports
`breaking message missing` exactly when neither some line of the footer
starts with `BREAKING CHANGE: ` followed by a further character of that line,
nor the body starts with `BREAKING CHANGE: ` followed by a further character
of its first line. -/
theorem C8_breaking_note_rule (c : commit) (ks ss : List String) (tf : String)
    (hb : c.isBreaking = true) (_ht : c.hasTicket = false)
    (hok : (setupValidators c ks ss tf).2 = none) :
    ∃ c' err, validate (setupValidators c ks ss tf).1 = .ok (c', err) ∧
      (reports err "breaking message missing" = true ↔
        ¬ noteAtLineStart c.footer ∧ ¬ noteAtStart c.body) := by
  have hcomp := compiled_of_setupValidators c ks ss tf hok
  obtain ⟨hre, tk, _, _, _, h3⟩ := setupValidators_ok c ks ss tf hok
  refine ⟨_, _, validate_of_compiled _ hcomp, ?_⟩
  rw [(reports_accumulate _ (headerError_cases _ _) _ _).1, h3]
  simp only [breakingRuleFails, hb, if_true, matchesOpt, Regexp.MatchString, Bool.true_and,
    Bool.not_eq_true', Bool.or_eq_false_iff]
  rw [← Bool.not_eq_true, ← Bool.not_eq_true, breakingProg_matchFrom_iff,
    breakingInBodyProg_matchFrom_iff]
  rfl

theorem C8_breaking_note_rule_witness :
    ∃ c' err, validate (setupValidators
        { header := "feat!: drop api", footer := "refs 1\nBREAKING CHANGE: api removed",
          isBreaking := true } [] [] "").1 = .ok (c', err) ∧
      (reports err "breaking message missing" = true ↔
        ¬ noteAtLineStart "refs 1\nBREAKING CHANGE: api removed" ∧ ¬ noteAtStart "") :=
  C8_breaking_note_rule
    { header := "feat!: drop api", footer := "refs 1\nBREAKING CHANGE: api removed",
      isBreaking := true } [] [] "" rfl rfl (by decide)

/-- C9: when the delimiter pattern is compiled and the split of a non-empty
message yields the sections `s0`, `mid`, `sn` (at least two sections), the
splitting step of `read` succeeds with header `s0` and footer `sn`; with
`hasTicket` the body is `mid` rejoined with the delimiter (empty when there
is no interior section), without `hasTicket` the body, empty before, stays
empty whatever `mid` is. -/
theorem C9_read_sections (c : commit) (message : String) (d : Regexp) (s0 sn : String)
    (mid : List String) (_hcomp : compilePair delimeter = (some d, none))
    (hd : c.validator.delimeter = some d) (_hne : message ≠ "") (hbody : c.body = "")
    (hs : d.Split message = s0 :: (mid ++ [sn])) :
    ∃ c', readSections c message = .ok (c', none) ∧ c'.header = s0 ∧ c'.footer = sn ∧
      (c.hasTicket = true → c'.body = strings.Join mid delimeter) ∧
      (c.hasTicket = true → mid = [] → c'.body = "") ∧
      (c.hasTicket = false → c'.body = "") := by
  have hlen : (s0 :: (mid ++ [sn])).length = mid.length + 2 := by simp
  have hlast : (s0 :: (mid ++ [sn]))[mid.length + 2 - 1]? = some sn := by
    simp
  have hmid : (List.drop 1 (s0 :: (mid ++ [sn]))).take (mid.length + 2 - 1 - 1) = mid := by
    simp
  unfold readSections
  simp only [hd, hs, hlen, hlast, hmid]
  cases ht : c.hasTicket
  · refine ⟨_, by simp [ht]; rfl, rfl, rfl, by simp, by simp, ?_⟩
    intro _
    exact hbody
  · refine ⟨_, by simp [ht]; rfl, rfl, rfl, fun _ => rfl, ?_, by simp⟩
    intro _ hm
    subst hm
    rfl

theorem C9_read_sections_witness :
    ∃ c', readSections
        { hasTicket := true, validator := { delimeter := some ⟨delimeter, delimeterProg⟩ } }
        "fix: a\n\nwhy\n\nhow\n\ncloses #1" = .ok (c', none) ∧
      c'.header = "fix: a" ∧ c'.footer = "closes #1" ∧
      ((true = true) → c'.body = strings.Join ["why", "how"] delimeter) ∧
      ((true = true) → ["why", "how"] = [] → c'.body = "") ∧
      ((true = false) → c'.body = "") :=
  C9_read_sections
    { hasTicket := true, validator := { delimeter := some ⟨delimeter, delimeterProg⟩ } }
    "fix: a\n\nwhy\n\nhow\n\ncloses #1" ⟨delimeter, delimeterProg⟩ "fix: a" "closes #1"
    ["why", "how"] (by decide) rfl (by decide) rfl (by decide)

/-- C10: when the delimiter pattern is compiled, on a non-empty message that
does not contain the delimiter the splitting step of `read` returns the error
`body or footer is required but missing` exactly when `hasTicket` or
`isBreaking` holds; otherwise it returns no error, the header is the whole
message and body and footer, empty before, stay empty. -/
theorem C10_single_section (c : commit) (message : String) (d : Regexp)
    (hcomp : compilePair delimeter = (some d, none))
    (hd : c.validator.delimeter = some d) (hne : message ≠ "")
    (hno : strings.Contains message delimeter = false)
    (hbody : c.body = "") (hfooter : c.footer = "") :
    ∃ c' err, readSections c message = .ok (c', err) ∧
      (err = some "body or footer is required but missing" ↔
        (c.hasTicket = true ∨ c.isBreaking = true)) ∧
      (¬ (c.hasTicket = true ∨ c.isBreaking = true) →
        err = none ∧ c'.header = message ∧ c'.body = "" ∧ c'.footer = "") := by
  rw [compile_delimeter] at hcomp
  have hd' : d = ⟨delimeter, delimeterProg⟩ := by simpa using hcomp.symm
  subst hd'
  unfold readSections
  simp only [hd, Split_no_delimeter message hne hno]
  cases ht : c.hasTicket <;> cases hb : c.isBreaking <;> simp [hbody, hfooter]
  exact ⟨_, none, ⟨rfl, rfl⟩, by simp, rfl, rfl, rfl, rfl⟩

theorem C10_single_section_witness :
    ∃ c' err, readSections
        { isBreaking := true, validator := { delimeter := some ⟨delimeter, delimeterProg⟩ } }
        "feat!: drop api" = .ok (c', err) ∧
      (err = some "body or footer is required but missing" ↔ ((false = true) ∨ (true = true))) ∧
      (¬ ((false = true) ∨ (true = true)) →
        err = none ∧ c'.header = "feat!: drop api" ∧ c'.body = "" ∧ c'.footer = "") :=
  C10_single_section
    { isBreaking := true, validator := { delimeter := some ⟨delimeter, delimeterProg⟩ } }
    "feat!: drop api" ⟨delimeter, delimeterProg⟩ (by decide) rfl (by decide) (by decide) rfl rfl

/-! ## Further facts used by the claims on `parse`, `write` and `validate` -/

/-- The two ways `validate` can return: no error and the commit as it
was, or an error and the commit with the constant text `# ERROR: %v\n`
(percent sign, `v`, backslash, `n`) put in front of the header. -/
theorem validate_shape (c : commit) (r : commit × error) (h : validate c = .ok r) :
    (r.2 = none ∧ r.1 = c) ∨
    (r.2.isSome = true ∧ r.1 = { c with header := "# ERROR: %v\\n" ++ c.header }) := by
  have key : ∀ (e3 : error),
      (if e3.isSome then
          (Except.ok ({ c with header := "# ERROR: %v\\n" ++ c.header }, e3) :
            Except Panic (commit × error))
        else .ok (c, e3)) = .ok r →
      (r.2 = none ∧ r.1 = c) ∨
      (r.2.isSome = true ∧ r.1 = { c with header := "# ERROR: %v\\n" ++ c.header }) := by
    intro e3 h3
    cases e3 with
    | none =>
      simp only [Option.isSome_none, Bool.false_eq_true, if_false] at h3
      injection h3 with h3
      subst h3
      exact Or.inl ⟨rfl, rfl⟩
    | some e =>
      simp only [Option.isSome_some, if_true] at h3
      injection h3 with h3
      subst h3
      exact Or.inr ⟨rfl, rfl⟩
  unfold validate at h
  cases hh : c.validator.header with
  | none => simp [hh] at h
  | some re =>
    cases hb : breakingMissing c with
    | error e => simp [hh, hb] at h
    | ok bm =>
      cases ht : ticketMissing c with
      | error e => simp [hh, hb, ht] at h
      | ok tm =>
        simp only [hh, hb, ht] at h
        exact key _ h

/-- When `validate` returns no error it returns the commit as it was. -/
theorem validate_none_unchanged (c c' : commit) (h : validate c = .ok (c', none)) : c' = c := by
  rcases validate_shape c (c', none) h with ⟨_, h1⟩ | ⟨h2, _⟩
  · exact h1
  · simp at h2

/-- When `validate` returns an error, the only field it changes is the
header, which gets the constant text in front. -/
theorem validate_some_header (c c' : commit) (e : String) (h : validate c = .ok (c', some e)) :
    c' = { c with header := "# ERROR: %v\\n" ++ c.header } := by
  rcases validate_shape c (c', some e) h with ⟨h1, _⟩ | ⟨_, h2⟩
  · simp at h1
  · exact h2

/-- On a commit that holds only the file path, `parse` faults for every
readable, non-empty file: `read` runs before `setupValidators`, so the
delimiter pointer is still nil when it is used. -/
theorem parse_fresh_faults (fs : FileSystem) (file content : String) (cfg : config)
    (h : fs.content file = some content) (hne : content ≠ "") :
    parse fs { file := file } cfg = .error .nilPointerDereference := by
  have hlen : ¬ (len content = 0) := fun h0 => hne ((len_eq_zero_iff content).mp h0)
  simp [parse, read, ioutil.ReadFile, h, hlen, readSections]

/-! ## Claims on the read and write protocols -/

/-- C11: when the commit file has zero length, `parse` returns the error
`commit message is empty` and the commit exactly as it was: header, body and
footer are unchanged, no pattern was compiled (the validator is unchanged)
and `validate` did not touch the header. This holds for every configuration
and every commit state. -/
theorem C11_parse_empty_file (fs : FileSystem) (c : commit) (cfg : config) (content : String)
    (h : fs.content c.file = some content) (h0 : len content = 0) :
    parse fs c cfg = .ok (c, some "commit message is empty") := by
  simp [parse, read, ioutil.ReadFile, h, h0]

theorem C11_parse_empty_file_witness :
    parse ⟨fun _ => some "", fun _ => true⟩
        { file := "COMMIT_EDITMSG", validator := { delimeter := some ⟨delimeter, delimeterProg⟩ } }
        { otherKinds := ["chore"], scopes := ["api"], ticketFormat := "#1" } =
      .ok ({ file := "COMMIT_EDITMSG",
             validator := { delimeter := some ⟨delimeter, delimeterProg⟩ } },
           some "commit message is empty") :=
  C11_parse_empty_file ⟨fun _ => some "", fun _ => true⟩
    { file := "COMMIT_EDITMSG", validator := { delimeter := some ⟨delimeter, delimeterProg⟩ } }
    { otherKinds := ["chore"], scopes := ["api"], ticketFormat := "#1" } "" rfl (by decide)

/-- C13 (the code at the failing input): on the commit that holds only the
file path, with the default configuration and the file content
`fix: does a thing`, `parse` faults with a nil pointer dereference: the
delimiter pattern is compiled by `setupValidators`, which runs after `read`. -/
theorem C13_parse_faults_on_nil_delimeter :
    parse ⟨fun _ => some "fix: does a thing", fun _ => true⟩ { file := "COMMIT_EDITMSG" }
      defaultConfig = .error .nilPointerDereference := by
  decide

/-- C14 (the code at every input): `newCommit` faults with a nil pointer
dereference whatever its arguments are, because it assigns the fields
through its named result pointer, which is never allocated. -/
theorem C14_newCommit_faults (location kind scope subject ticket : String) (isBreaking : Bool) :
    newCommit location kind scope subject ticket isBreaking = .error .nilPointerDereference :=
  rfl

/-- C15 (the code at the failing input): with the scopes configured as
`api` only, the header `fix(web): add x`, whose scope is not configured, is
accepted by `validate`: the first alternative of the header pattern,
`^(#.*\n?)*(fix)`, does not look at the scope. -/
theorem C15_unlisted_scope_accepted :
    (setupValidators { header := "fix(web): add x" } [] ["api"] "").2 = none ∧
    validate (setupValidators { header := "fix(web): add x" } [] ["api"] "").1 =
      .ok ((setupValidators { header := "fix(web): add x" } [] ["api"] "").1, none) := by
  decide

/-- C17: when `validate` returns no error, the commit it returns is the
commit it was given (header and every other field unchanged), and `validate`
on that result returns no error again. -/
theorem C17_validate_idempotent (c c' : commit) (h : validate c = .ok (c', none)) :
    c' = c ∧ validate c' = .ok (c', none) := by
  have hc := validate_none_unchanged c c' h
  subst hc
  exact ⟨rfl, h⟩

theorem C17_validate_idempotent_witness :
    withRules { header := "fix: does a thing" } defaultConfig =
      withRules { header := "fix: does a thing" } defaultConfig ∧
    validate (withRules { header := "fix: does a thing" } defaultConfig) =
      .ok (withRules { header := "fix: does a thing" } defaultConfig, none) :=
  C17_validate_idempotent _ _ (by decide)

/-- C18 (the code at the failing input): on the header `chore: x` (default
configuration) `validate` returns `header is invalid` and the new header is
`# ERROR: %v\nchore: x` with the format verb and the backslash-n taken
literally: it carries neither the error text nor a newline. -/
theorem C18_error_comment_not_formatted :
    (validate (withRules { header := "chore: x" } defaultConfig)).map
        (fun r => (r.1.header, r.2)) =
      .ok ("# ERROR: %v\\nchore: x", some "header is invalid") ∧
    strings.Contains "# ERROR: %v\\nchore: x" "header is invalid" = false ∧
    strings.Contains "# ERROR: %v\\nchore: x" "\n" = false := by
  decide

/-- C19: for two commits that are neither breaking nor carry a ticket, with
the same header and the same rule set, `validate` gives the same outcome
(fault, or error value and resulting header) whatever their bodies and
footers are; and the error never reports a missing breaking note or
ticket. -/
theorem C19_validate_depends_on_header (c1 c2 : commit)
    (hb1 : c1.isBreaking = false) (ht1 : c1.hasTicket = false)
    (hb2 : c2.isBreaking = false) (ht2 : c2.hasTicket = false)
    (hh : c1.header = c2.header) (hv : c1.validator = c2.validator) :
    (validate c1).map (fun r => (r.1.header, r.2)) =
      (validate c2).map (fun r => (r.1.header, r.2)) ∧
    (∀ c' err, validate c1 = .ok (c', err) →
      reports err "breaking message missing" = false ∧ reports err "ticket missing" = false) := by
  constructor
  · unfold validate breakingMissing ticketMissing
    simp only [hb1, ht1, hb2, ht2, hh, hv]
    cases c2.validator.header with
    | none => rfl
    | some re =>
      simp only [Bool.false_eq_true, if_false]
      split <;> simp [Except.map, hh]
  · intro c' err hval
    have hcomp : compiled c1 := by
      refine ⟨?_, by simp [hb1], by simp [ht1]⟩
      cases hhd : c1.validator.header with
      | none => simp [validate, hhd] at hval
      | some re => rfl
    rw [validate_of_compiled c1 hcomp] at hval
    simp only [Except.ok.injEq, Prod.mk.injEq] at hval
    rw [← hval.2, (reports_accumulate _ (headerError_cases _ _) _ _).1,
      (reports_accumulate _ (headerError_cases _ _) _ _).2.1]
    simp [breakingRuleFails, ticketRuleFails, hb1, ht1]

theorem C19_validate_depends_on_header_witness :
    (validate (withRules { header := "chore: x", body := "one", footer := "two" }
        defaultConfig)).map (fun r => (r.1.header, r.2)) =
      (validate (withRules { header := "chore: x" } defaultConfig)).map
        (fun r => (r.1.header, r.2)) ∧
    (∀ c' err,
      validate (withRules { header := "chore: x", body := "one", footer := "two" }
        defaultConfig) = .ok (c', err) →
      reports err "breaking message missing" = false ∧ reports err "ticket missing" = false) :=
  C19_validate_depends_on_header
    (withRules { header := "chore: x", body := "one", footer := "two" } defaultConfig)
    (withRules { header := "chore: x" } defaultConfig) rfl rfl rfl rfl (by decide) (by decide)

/-! ## Joining the sections back -/

theorem Join_cons_of_ne_nil (a : String) (l : List String) (sep : String) (h : l ≠ []) :
    strings.Join (a :: l) sep = a ++ sep ++ strings.Join l sep := by
  cases l with
  | nil => exact absurd rfl h
  | cons b r => rfl

theorem Join_append_singleton (mid : List String) (sn sep : String) (h : mid ≠ []) :
    strings.Join (mid ++ [sn]) sep = strings.Join mid sep ++ sep ++ sn := by
  induction mid with
  | nil => exact absurd rfl h
  | cons a r ih =>
    cases r with
    | nil => rfl
    | cons b r' =>
      have h1 : strings.Join (a :: b :: r' ++ [sn]) sep =
          a ++ sep ++ strings.Join (b :: r' ++ [sn]) sep := rfl
      have h2 : strings.Join (a :: b :: r') sep = a ++ sep ++ strings.Join (b :: r') sep := rfl
      rw [h1, h2, ih (by simp)]
      simp only [String.append_assoc]

theorem run_delimeterProg_match (p : Option Char) (t : List Char) :
    delimeterProg.run p ('\n' :: '\n' :: t) = [(some '\n', t)] := by
  simp [delimeterProg, Node.run]

/-- A text starts with the delimiter or it does not. -/
theorem delimeter_prefix_cases (s : List Char) :
    (∃ t, s = '\n' :: '\n' :: t) ∨ ['\n', '\n'].isPrefixOf s = false := by
  match s with
  | [] => exact Or.inr rfl
  | [c] => exact Or.inr (by simp [List.isPrefixOf])
  | c :: d :: t =>
    by_cases hc : c = '\n'
    · by_cases hd : d = '\n'
      · subst hc hd
        exact Or.inl ⟨t, rfl⟩
      · right
        have hd' : ¬ '\n' = d := fun h => hd h.symm
        simp [List.isPrefixOf, hd']
    · right
      have hc' : ¬ '\n' = c := fun h => hc h.symm
      simp [List.isPrefixOf, hc']

/-- Cutting at the delimiter loses nothing: the sections joined with the
delimiter give the text back, and there is at least one section. -/
theorem splitLoop_delimeter_join (fuel : Nat) :
    ∀ (s : List Char) (p : Option Char) (cur : List Char) (afterMatch atStart : Bool),
      s.length < fuel →
      splitLoop delimeterProg fuel p s cur afterMatch atStart ≠ [] ∧
      strings.Join ((splitLoop delimeterProg fuel p s cur afterMatch atStart).map String.mk)
        delimeter = ⟨cur ++ s⟩ := by
  induction fuel with
  | zero => intro s p cur am st hf; simp at hf
  | succ n ih =>
    intro s p cur am st hf
    rcases delimeter_prefix_cases s with ⟨t, rfl⟩ | hpre'
    · obtain ⟨hne, hj⟩ := ih t (some '\n') [] true false (by simp at hf; omega)
      have hstep : splitLoop delimeterProg (n + 1) p ('\n' :: '\n' :: t) cur am st =
          cur :: splitLoop delimeterProg n (some '\n') t [] true false := by
        simp only [splitLoop, run_delimeterProg_match, List.head?_cons]
        rw [if_pos (by simp only [List.length_cons]; omega)]
      rw [hstep]
      refine ⟨by simp, ?_⟩
      rw [List.map_cons, Join_cons_of_ne_nil _ _ _ (by simpa using hne), hj]
      apply String.ext
      simp [delimeter]
    · have h0 : delimeterProg.run p s = [] := run_delimeterProg_of_not_prefix p s hpre'
      cases s with
      | nil =>
        simp [splitLoop, h0, strings.Join]
      | cons c t =>
        obtain ⟨hne, hj⟩ := ih t (some c) (cur ++ [c]) false false (by simpa using hf)
        have hstep : splitLoop delimeterProg (n + 1) p (c :: t) cur am st =
            splitLoop delimeterProg n (some c) t (cur ++ [c]) false false := by
          simp [splitLoop, h0]
        rw [hstep]
        refine ⟨hne, ?_⟩
        rw [hj]
        simp

/-- `Split` with the compiled delimiter followed by `strings.Join` with the
delimiter is the identity on non-empty texts. -/
theorem Split_join (message : String) (hne : message ≠ "") :
    strings.Join (Regexp.Split ⟨delimeter, delimeterProg⟩ message) delimeter = message := by
  have hlen : ¬ (len message = 0) := fun h => hne ((len_eq_zero_iff message).mp h)
  simp only [Regexp.Split, hlen, and_false, if_false]
  rw [(splitLoop_delimeter_join _ message.data none [] false true (by simp)).2]
  simp

/-- What the splitting step of `read` does with at least two sections. -/
theorem readSections_of_split (c : commit) (message : String) (d : Regexp) (s0 sn : String)
    (mid : List String) (hd : c.validator.delimeter = some d)
    (hs : d.Split message = s0 :: (mid ++ [sn])) :
    readSections c message =
      .ok ({ c with header := s0, footer := sn,
                    body := if c.hasTicket then strings.Join mid delimeter else c.body }, none) := by
  have hlen : (s0 :: (mid ++ [sn])).length = mid.length + 2 := by simp
  have hlast : (s0 :: (mid ++ [sn]))[mid.length + 2 - 1]? = some sn := by
    simp
  have hmid : (List.drop 1 (s0 :: (mid ++ [sn]))).take (mid.length + 2 - 1 - 1) = mid := by
    simp
  unfold readSections
  simp only [hd, hs, hlen, hlast, hmid]
  cases ht : c.hasTicket <;> simp

/-- A list with at least two elements is a first element, a middle part and
a last element. -/
theorem exists_first_mid_last (l : List String) (h : 2 ≤ l.length) :
    ∃ s0 mid sn, l = s0 :: (mid ++ [sn]) ∧ mid.length + 2 = l.length := by
  match l, h with
  | s0 :: t, h =>
    have ht : t ≠ [] := by
      intro h0
      subst h0
      simp at h
    refine ⟨s0, t.dropLast, t.getLast ht, by rw [List.dropLast_append_getLast ht], ?_⟩
    have := List.length_dropLast t
    have hpos : 0 < t.length := List.length_pos.mpr ht
    simp only [List.length_cons, List.length_dropLast]
    omega

/-! ## Claims on the round trip and on the write protocol -/

/-- C12: take a commit `c` without ticket and not breaking, with body and
footer still empty, whose built header does not contain the delimiter, and
any commit `f` that reads (not breaking, no ticket, body and footer empty,
delimiter pattern compiled, header arbitrary). The header `build` gives `c`
is kind, parenthesised scope when present, `: `, subject, and the built
message is that header; the splitting step of `read`, run on `f` with the
built message, returns no error and sets the header of `f` to the built
header, with body and footer empty. -/
theorem C12_build_then_split (c f : commit) (d : Regexp)
    (hcomp : compilePair delimeter = (some d, none)) (hd : f.validator.delimeter = some d)
    (hb : c.isBreaking = false) (ht : c.hasTicket = false)
    (hbody : c.body = "") (hfooter : c.footer = "")
    (hfb : f.isBreaking = false) (hft : f.hasTicket = false)
    (hfbody : f.body = "") (hffooter : f.footer = "")
    (hno : strings.Contains (build c).1.header delimeter = false) :
    (build c).1.header =
      c.kind ++ (if c.scope = "" then "" else "(" ++ c.scope ++ ")") ++ ": " ++ c.subject ∧
    (build c).1.message = (build c).1.header ∧
    ∃ f', readSections f (build c).1.message = .ok (f', none) ∧
      f'.header = (build c).1.header ∧ f'.body = "" ∧ f'.footer = "" := by
  rw [compile_delimeter] at hcomp
  have hd' : d = ⟨delimeter, delimeterProg⟩ := by simpa using hcomp.symm
  subst hd'
  have hscope : (if len c.scope > 0 then "(" ++ c.scope ++ ")" else "") =
      (if c.scope = "" then "" else "(" ++ c.scope ++ ")") := by
    by_cases hs : c.scope = ""
    · have h0 : len "" = 0 := (len_eq_zero_iff "").mpr rfl
      rw [hs]
      simp [h0]
    · have h0 : len c.scope > 0 := (len_pos_iff c.scope).mpr hs
      simp [hs, h0]
  have hbuild : (build c).1 =
      { c with header := c.kind ++ (if c.scope = "" then "" else "(" ++ c.scope ++ ")") ++ ": " ++
                  c.subject,
               message := c.kind ++ (if c.scope = "" then "" else "(" ++ c.scope ++ ")") ++ ": " ++
                  c.subject } := by
    simp [build, hb, ht, hbody, hfooter, hscope]
  rw [hbuild] at hno ⊢
  have hne : c.kind ++ (if c.scope = "" then "" else "(" ++ c.scope ++ ")") ++ ": " ++
      c.subject ≠ "" := by
    intro h
    have := congrArg String.length h
    simp only [String.length_append] at this
    have h2 : ": ".length = 2 := rfl
    have h3 : "".length = 0 := rfl
    omega
  refine ⟨rfl, rfl, ?_⟩
  unfold readSections
  simp only [hd, Split_no_delimeter _ hne hno]
  simp [hfb, hft, hfbody, hffooter]

theorem C12_build_then_split_witness :
    (build { kind := "fix", subject := "does a thing" }).1.header = "fix: does a thing" ∧
    (build { kind := "fix", subject := "does a thing" }).1.message = "fix: does a thing" ∧
    ∃ f', readSections
        { file := "COMMIT_EDITMSG", header := "stale",
          validator := { delimeter := some ⟨delimeter, delimeterProg⟩ } }
        "fix: does a thing" = .ok (f', none) ∧
      f'.header = "fix: does a thing" ∧ f'.body = "" ∧ f'.footer = "" :=
  C12_build_then_split { kind := "fix", subject := "does a thing" }
    { file := "COMMIT_EDITMSG", header := "stale",
      validator := { delimeter := some ⟨delimeter, delimeterProg⟩ } }
    ⟨delimeter, delimeterProg⟩ (by decide) rfl rfl rfl rfl rfl rfl rfl rfl rfl (by decide)

/-- C20: with the delimiter pattern compiled and a non-empty message, when
the split yields at least three sections and `hasTicket` holds, the splitting
step of `read` returns header, body and footer that, joined with the
delimiter, give the message back; when the split yields exactly two sections,
header and footer joined with the delimiter give the message back, whatever
`hasTicket` is. -/
theorem C20_split_lossless (c : commit) (message : String) (d : Regexp)
    (hcomp : compilePair delimeter = (some d, none)) (hd : c.validator.delimeter = some d)
    (hne : message ≠ "") :
    (c.hasTicket = true → 3 ≤ (d.Split message).length →
      ∃ c', readSections c message = .ok (c', none) ∧
        c'.header ++ delimeter ++ c'.body ++ delimeter ++ c'.footer = message) ∧
    ((d.Split message).length = 2 →
      ∃ c', readSections c message = .ok (c', none) ∧
        c'.header ++ delimeter ++ c'.footer = message) := by
  rw [compile_delimeter] at hcomp
  have hd' : d = ⟨delimeter, delimeterProg⟩ := by simpa using hcomp.symm
  subst hd'
  have hjoin := Split_join message hne
  constructor
  · intro ht h3
    obtain ⟨s0, mid, sn, hs, hl⟩ :=
      exists_first_mid_last (Regexp.Split ⟨delimeter, delimeterProg⟩ message) (by omega)
    have hmid : mid ≠ [] := by
      intro h0
      subst h0
      simp at hl
      omega
    refine ⟨_, readSections_of_split c message _ s0 sn mid hd hs, ?_⟩
    rw [hs, Join_cons_of_ne_nil _ _ _ (by simp), Join_append_singleton _ _ _ hmid] at hjoin
    simp only [ht, if_true]
    rw [← hjoin]
    simp only [String.append_assoc]
  · intro h2
    obtain ⟨s0, mid, sn, hs, hl⟩ :=
      exists_first_mid_last (Regexp.Split ⟨delimeter, delimeterProg⟩ message) (by omega)
    have hmid : mid = [] := by
      cases mid with
      | nil => rfl
      | cons a r => simp at hl; omega
    subst hmid
    refine ⟨_, readSections_of_split c message _ s0 sn [] hd hs, ?_⟩
    rw [hs] at hjoin
    exact hjoin

theorem C20_split_lossless_witness :
    ((true = true) →
      3 ≤ (Regexp.Split ⟨delimeter, delimeterProg⟩ "fix: a\n\nwhy\n\n\nhow\n\ncloses #1").length →
      ∃ c', readSections
          { hasTicket := true, validator := { delimeter := some ⟨delimeter, delimeterProg⟩ } }
          "fix: a\n\nwhy\n\n\nhow\n\ncloses #1" = .ok (c', none) ∧
        c'.header ++ delimeter ++ c'.body ++ delimeter ++ c'.footer =
          "fix: a\n\nwhy\n\n\nhow\n\ncloses #1") ∧
    ((Regexp.Split ⟨delimeter, delimeterProg⟩ "fix: a\n\nwhy\n\n\nhow\n\ncloses #1").length = 2 →
      ∃ c', readSections
          { hasTicket := true, validator := { delimeter := some ⟨delimeter, delimeterProg⟩ } }
          "fix: a\n\nwhy\n\n\nhow\n\ncloses #1" = .ok (c', none) ∧
        c'.header ++ delimeter ++ c'.footer = "fix: a\n\nwhy\n\n\nhow\n\ncloses #1") :=
  C20_split_lossless
    { hasTicket := true, validator := { delimeter := some ⟨delimeter, delimeterProg⟩ } }
    "fix: a\n\nwhy\n\n\nhow\n\ncloses #1" ⟨delimeter, delimeterProg⟩ (by decide) rfl (by decide)

/-! ## The write protocol -/

theorem build_snd (c : commit) : (build c).2 = none := rfl

theorem build_file (c : commit) : (build c).1.file = c.file := by
  cases hb : c.isBreaking <;> cases ht : c.hasTicket <;> simp [build, hb, ht]

/-- `write` when `setupValidators` fails: its error is returned and nothing
is written. -/
theorem write_of_rules_error (fs : FileSystem) (c : commit) (cfg : config) (e : String)
    (h : (setupValidators (build c).1 cfg.otherKinds cfg.scopes cfg.ticketFormat).2 = some e) :
    write fs c cfg = .ok (withRules (build c).1 cfg, fs, some e) := by
  simp [write, build_snd, h, withRules]

/-- `write` when the rules compile and `validate` returns an error: that
error is returned and nothing is written. -/
theorem write_of_validate_error (fs : FileSystem) (c : commit) (cfg : config) (v : commit)
    (e : String)
    (h : (setupValidators (build c).1 cfg.otherKinds cfg.scopes cfg.ticketFormat).2 = none)
    (hv : validate (withRules (build c).1 cfg) = .ok (v, some e)) :
    write fs c cfg = .ok (v, fs, some e) := by
  unfold withRules at hv
  simp [write, build_snd, h, hv]

/-- `write` when the three stages succeed: the built message is written to
the commit file, and the outcome of that write is returned. -/
theorem write_of_stages_ok (fs : FileSystem) (c : commit) (cfg : config) (v : commit)
    (h : (setupValidators (build c).1 cfg.otherKinds cfg.scopes cfg.ticketFormat).2 = none)
    (hv : validate (withRules (build c).1 cfg) = .ok (v, none)) :
    write fs c cfg =
      .ok (v, (ioutil.WriteFile fs c.file (build c).1.message).1,
        (ioutil.WriteFile fs c.file (build c).1.message).2) := by
  have hvc := validate_none_unchanged _ _ hv
  obtain ⟨hre, tk, _, _, _, h3⟩ := setupValidators_ok _ _ _ _ h
  have hfile : v.file = c.file := by
    rw [hvc, withRules, h3]
    exact build_file c
  have hmsg : v.message = (build c).1.message := by
    rw [hvc, withRules, h3]
  unfold withRules at hv
  simp [write, build_snd, h, hv, save, hfile, hmsg]

/-- Once the rules compile, `validate` returns (no fault). -/
theorem validate_returns_of_rules_ok (c : commit) (cfg : config)
    (h : (setupValidators c cfg.otherKinds cfg.scopes cfg.ticketFormat).2 = none) :
    ∃ v err, validate (withRules c cfg) = .ok (v, err) :=
  ⟨_, _, validate_of_compiled _ (compiled_of_setupValidators c _ _ _ h)⟩

theorem build_hasTicket (c : commit) : (build c).1.hasTicket = c.hasTicket := by
  cases hb : c.isBreaking <;> cases ht : c.hasTicket <;> simp [build, hb, ht]

/-- Inside the fragment an error of `setupValidators` is a parse error of
the library, never the answer the model gives for syntax it does not cover. -/
theorem setupValidators_error_in_fragment (c : commit) (cfg : config)
    (h : rulesInFragment c cfg) (e : String)
    (he : (setupValidators c cfg.otherKinds cfg.scopes cfg.ticketFormat).2 = some e) :
    unsupported e = false := by
  obtain ⟨h1, h2⟩ := h
  have hcp : ∀ x, compilePair x = (match regexp.Compile x with
      | .ok re => (some re, none) | .error msg => (none, some msg)) := fun _ => rfl
  have hfr : ∀ x msg, inFragment x = true → regexp.Compile x = .error msg →
      unsupported msg = false := by
    intro x msg hx hc
    simp only [inFragment, hc, Bool.and_eq_true, Bool.not_eq_true'] at hx
    exact hx.2
  unfold setupValidators at he
  simp only [compile_delimeter, compile_breaking, compile_breakingInBody] at he
  cases hh : regexp.Compile (headerExpr cfg.otherKinds cfg.scopes) with
  | error msg =>
    simp [hcp, hh] at he
    rw [← he]
    exact hfr _ _ h1 hh
  | ok hre =>
    cases hb : c.isBreaking <;> cases ht : c.hasTicket
    · simp [hcp, hh, hb, ht] at he
    · cases htc : regexp.Compile ("(^|\\n).+\\b" ++ cfg.ticketFormat ++ "\\b") with
      | error msg =>
        simp [hcp, hh, hb, ht, htc] at he
        rw [← he]
        exact hfr _ _ (h2 ht) htc
      | ok tre => simp [hcp, hh, hb, ht, htc] at he
    · simp [hcp, hh, hb, ht] at he
    · cases htc : regexp.Compile ("(^|\\n).+\\b" ++ cfg.ticketFormat ++ "\\b") with
      | error msg =>
        simp [hcp, hh, hb, ht, htc] at he
        rw [← he]
        exact hfr _ _ (h2 ht) htc
      | ok tre => simp [hcp, hh, hb, ht, htc] at he

/-- C16: for every commit and every configuration whose patterns lie in
the modelled fragment, `write` never faults. When `build`, `setupValidators`
and `validate` all succeed, it writes the built message to the commit file
and returns the outcome of that write (on a writable file: no error, and the
content of the file is exactly the built message). When `setupValidators` or
`validate` fails, it returns that error and the file system is unchanged; an
error of `setupValidators` is then a parse error of the library.
Hence, on a writable file whose content is not already the built message,
the content of the commit file changes if and only if the three stages
succeed. -/
theorem C16_write_saves_only_valid (fs : FileSystem) (c : commit) (cfg : config)
    (hfrag : rulesInFragment c cfg) :
    ∃ c' fs' err, write fs c cfg = .ok (c', fs', err) ∧
      (stagesSucceed c cfg →
        fs' = (ioutil.WriteFile fs c.file (build c).1.message).1 ∧
        err = (ioutil.WriteFile fs c.file (build c).1.message).2 ∧
        (fs.writable c.file = true →
          err = none ∧ fs'.content c.file = some (build c).1.message)) ∧
      (∀ e, (setupValidators (build c).1 cfg.otherKinds cfg.scopes cfg.ticketFormat).2 = some e →
        fs' = fs ∧ err = some e ∧ unsupported e = false) ∧
      (∀ v e, (setupValidators (build c).1 cfg.otherKinds cfg.scopes cfg.ticketFormat).2 = none →
        validate (withRules (build c).1 cfg) = .ok (v, some e) → fs' = fs ∧ err = some e) ∧
      (¬ stagesSucceed c cfg → fs' = fs ∧ err ≠ none) ∧
      (fs.writable c.file = true → fs.content c.file ≠ some (build c).1.message →
        (fs'.content c.file ≠ fs.content c.file ↔ stagesSucceed c cfg)) := by
  have hfrag' : rulesInFragment (build c).1 cfg :=
    ⟨hfrag.1, fun h => hfrag.2 (by rw [← build_hasTicket c]; exact h)⟩
  cases hs : (setupValidators (build c).1 cfg.otherKinds cfg.scopes cfg.ticketFormat).2 with
  | some e0 =>
    have hn : ¬ stagesSucceed c cfg := fun h => by
      have h2 := h.2.1
      rw [hs] at h2
      simp at h2
    refine ⟨_, _, _, write_of_rules_error fs c cfg e0 hs, fun h => absurd h hn, ?_, ?_, ?_, ?_⟩
    · intro e he
      have he' : e0 = e := by simpa using he
      subst he'
      exact ⟨rfl, rfl, setupValidators_error_in_fragment _ cfg hfrag' e0 hs⟩
    · intro v e he
      simp at he
    · intro _
      exact ⟨rfl, by simp⟩
    · intro _ _
      exact ⟨fun h => absurd rfl h, fun h => absurd h hn⟩
  | none =>
    obtain ⟨v, err, hv⟩ := validate_returns_of_rules_ok (build c).1 cfg hs
    cases err with
    | some e0 =>
      have hn : ¬ stagesSucceed c cfg := fun h => by
        obtain ⟨v', hv'⟩ := h.2.2
        rw [hv] at hv'
        simp at hv'
      refine ⟨_, _, _, write_of_validate_error fs c cfg v e0 hs hv,
        fun h => absurd h hn, ?_, ?_, ?_, ?_⟩
      · intro e he
        simp at he
      · intro v' e' _ hv'
        rw [hv] at hv'
        injection hv' with hv'
        injection hv' with _ h2
        exact ⟨rfl, h2⟩
      · intro _
        exact ⟨rfl, by simp⟩
      · intro _ _
        exact ⟨fun h => absurd rfl h, fun h => absurd h hn⟩
    | none =>
      have hy : stagesSucceed c cfg := ⟨build_snd c, hs, v, hv⟩
      have hw : fs.writable c.file = true →
          (ioutil.WriteFile fs c.file (build c).1.message).2 = none ∧
          (ioutil.WriteFile fs c.file (build c).1.message).1.content c.file =
            some (build c).1.message := by
        intro hwr
        simp [ioutil.WriteFile, hwr]
      refine ⟨_, _, _, write_of_stages_ok fs c cfg v hs hv, fun _ => ⟨rfl, rfl, hw⟩, ?_, ?_, ?_, ?_⟩
      · intro e he
        simp at he
      · intro v' e' _ hv'
        rw [hv] at hv'
        injection hv' with hv'
        injection hv' with _ h2
        simp at h2
      · intro hn
        exact absurd hy hn
      · intro hwr hdiff
        refine ⟨fun _ => hy, fun _ => ?_⟩
        rw [(hw hwr).2]
        exact fun h => hdiff h.symm

theorem C16_write_saves_only_valid_witness :
    rulesInFragment { file := "COMMIT_EDITMSG", kind := "fix", subject := "does a thing" }
      defaultConfig ∧
    stagesSucceed { file := "COMMIT_EDITMSG", kind := "fix", subject := "does a thing" }
      defaultConfig ∧
    ∃ c' fs' err,
      write ⟨fun _ => some "", fun _ => true⟩
        { file := "COMMIT_EDITMSG", kind := "fix", subject := "does a thing" } defaultConfig =
        .ok (c', fs', err) ∧
      err = none ∧ fs'.content "COMMIT_EDITMSG" = some "fix: does a thing" := by
  have hf : rulesInFragment
      { file := "COMMIT_EDITMSG", kind := "fix", subject := "does a thing" } defaultConfig := by
    decide
  have hy : stagesSucceed
      { file := "COMMIT_EDITMSG", kind := "fix", subject := "does a thing" } defaultConfig :=
    ⟨rfl, by decide,
      withRules
        { file := "COMMIT_EDITMSG", kind := "fix", subject := "does a thing",
          header := "fix: does a thing", message := "fix: does a thing" } defaultConfig,
      by decide⟩
  obtain ⟨c', fs', err, hw, h1, _⟩ :=
    C16_write_saves_only_valid ⟨fun _ => some "", fun _ => true⟩
      { file := "COMMIT_EDITMSG", kind := "fix", subject := "does a thing" } defaultConfig hf
  exact ⟨hf, hy, c', fs', err, hw, ((h1 hy).2.2 rfl).1, ((h1 hy).2.2 rfl).2⟩

end Fritz
